import Mathlib

/-!
Verification development for the conflict-analysis engine of a CDCL SAT
solver (`src/analyze.cpp` of the `cadical-priority-bcp` repository).

The state of the solver (`CaDiCaL::Internal`) is embedded shallowly as the
structure `State` below; the functions of `analyze.cpp` are translated one
by one (`learn_empty_clause`, `learn_unit_clause`, `bump_variable`,
`bump_variables`, `bump_clause`, `bump_resolved_clauses`,
`save_as_resolved_clause`, `analyze_literal`, `analyze_reason`,
`clear_seen`, `clear_levels`, `analyze`).  Collaborator code that the
repository does not ship (the VMTF queue internals, the `Level` record,
`backtrack`, the assignment functions, the learned-clause factory, the
sorting comparators `trail_larger` / `analyzed_earlier`, the statistics
helpers `relative` / `percent`, and the exponential moving averages) is
modelled from the specification; each such definition carries a doc
comment starting with `Modelled from the spec:`.

`std::sort` (an unstable comparison sort) is modelled by
`List.insertionSort`, which produces one of the sorted permutations
`std::sort` may produce.  Machine integers are modelled by `Nat` / `Int`
(no overflow is reachable in the analysed quantities), moving averages by
the history of submitted values, and the proof logger by an optional
event trace.
-/

namespace Cadical

/-- Status of a variable (`Flags::status` in `flags.hpp`): `fixed` is the
permanent state entered when a unit clause is learned for the variable. -/
inductive VStatus where
  | active : VStatus
  | fixed : VStatus
deriving DecidableEq, Repr

/-- Event offered to the proof logger (`proof->trace_empty_clause` /
`proof->trace_unit_clause`). -/
inductive PEvent where
  | emptyCl : PEvent
  | unitCl : Int → PEvent
deriving DecidableEq, Repr

/-- Per-variable flags (`Flags`): the `seen`, `poison`, `removable`,
`keep` bits used by analysis and minimization, plus the status. -/
structure FlagsRec where
  seen : Bool
  poison : Bool
  removable : Bool
  keep : Bool
  status : VStatus
deriving DecidableEq, Repr

/-- Per-variable data (`Var`): decision level, trail position, and the
reason clause reference (`none` for decisions and unassigned variables). -/
structure VarRec where
  level : Nat
  trailPos : Nat
  reason : Option Nat
deriving DecidableEq, Repr

/-- Modelled from the spec: the per-decision-level record (`Level`, whose
header is not part of the repository excerpt) holds the count of analyzed
literals on the level and the lowest trail position on the level touched
during the current analysis; `reset` restores the empty state. -/
structure LevelRec where
  seenCount : Nat
  trailMin : Option Nat
deriving DecidableEq, Repr

/-- The empty (reset) state of a decision-level record. -/
def emptyLevel : LevelRec := { seenCount := 0, trailMin := none }

/-- Clause data (`Clause`): literals plus the redundant, hyper-binary
resolved (`hbr`), `used` and `have_analyzed` bits, the `analyzed` time
stamp and the glue. -/
structure ClauseRec where
  lits : List Int
  redundant : Bool
  hbr : Bool
  used : Bool
  have_analyzed : Bool
  analyzedTS : Nat
  glue : Nat
deriving DecidableEq, Repr

/-- The externally configurable options consulted by `analyze.cpp`. -/
structure Opts where
  trailbump : Bool
  trailbumprops : Int
  trailbumplast : Int
  minimize : Bool
  keepsize : Nat
  keepglue : Nat
deriving DecidableEq, Repr

/-- The solver state (`Internal`), restricted to the fields read or
written by `analyze.cpp`.  Per-variable arrays are total functions from
the variable index; clauses live in `cstore` addressed by `Nat`
identifiers, with `nextCid` the next fresh identifier. -/
structure State where
  trail : List Int
  level : Nat
  valtab : Nat → Int
  vtab : Nat → VarRec
  ftab : Nat → FlagsRec
  btab : Nat → Nat
  control : Nat → LevelRec
  queue : List Nat
  queueUnassigned : Option Nat
  analyzed : List Int
  clause : List Int
  levels : List Nat
  resolved : List Nat
  cstore : Nat → ClauseRec
  nextCid : Nat
  conflict : Option Nat
  unsat : Bool
  iterating : Bool
  proofTrace : Option (List PEvent)
  statsBumped : Nat
  statsBumplast : Nat
  statsAnalyzed : Nat
  statsLearned : Nat
  statsUnits : Nat
  statsBinaries : Nat
  statsFixed : Nat
  statsTrailbumped : Nat
  statsPropagations : Nat
  statsDecisions : Nat
  fastGlueHist : List Nat
  slowGlueHist : List Nat
  sizeAvgHist : List Nat
  jumpAvgHist : List Nat
  opts : Opts

/-- `vidx (lit)`: the variable index of a literal. -/
def vidx (lit : Int) : Nat := lit.natAbs

/-- `val (lit)`: the current value of a literal (positive when satisfied,
negative when falsified, `0` when unassigned). -/
def val (s : State) (lit : Int) : Int :=
  if lit < 0 then - s.valtab (vidx lit) else s.valtab (vidx lit)

/-- The decision level of a literal's variable (`var (lit).level`). -/
def litLevel (s : State) (lit : Int) : Nat := (s.vtab (vidx lit)).level

/-- The trail position of a literal's variable (`var (lit).trail`). -/
def litPos (s : State) (lit : Int) : Nat := (s.vtab (vidx lit)).trailPos

/-- The `seen` flag of a literal's variable. -/
def seenF (s : State) (idx : Nat) : Bool := (s.ftab idx).seen

/-- `Internal::learn_empty_clause`: trace the empty clause to the proof
logger if one is attached and raise the process-wide `unsat` flag. -/
def learn_empty_clause (s : State) : State :=
  { s with proofTrace := s.proofTrace.map (· ++ [PEvent.emptyCl]),
           unsat := true }

/-- `Internal::learn_unit_clause`: trace the unit to the proof logger if
attached, set the variable's status to `FIXED`, and count it. -/
def learn_unit_clause (s : State) (lit : Int) : State :=
  { s with
      proofTrace := s.proofTrace.map (· ++ [PEvent.unitCl lit]),
      ftab := (Function.update s.ftab (vidx lit)
        ({ s.ftab (vidx lit) with status := VStatus.fixed })),
      statsFixed := s.statsFixed + 1 }

/-- `Internal::bump_variable`: if the variable is already at the front of
the VMTF queue (`!l->next`, i.e. it is the most recently enqueued link)
nothing happens; otherwise it is dequeued and re-enqueued at the front
(queue internals modelled from the spec: the queue is a total order with
the most recently bumped variable first), stamped with a freshly
incremented global bump counter, the bumped-on-last-level counter is
incremented when its level is the current level, and the first-unassigned
cursor is updated when it is unassigned. -/
def bump_variable (s : State) (lit : Int) : State :=
  let idx := vidx lit
  if s.queue.head? = some idx then s
  else
    let s1 := { s with queue := idx :: s.queue.erase idx,
                       btab := (Function.update s.btab idx (s.statsBumped + 1)),
                       statsBumped := s.statsBumped + 1 }
    let s2 := if (s.vtab idx).level = s.level then
                { s1 with statsBumplast := s1.statsBumplast + 1 }
              else s1
    if s.valtab idx = 0 then { s2 with queueUnassigned := some idx } else s2

/-- The comparator `bumped_earlier`: ascending prior bump stamp. -/
def bumpedEarlier (s : State) (a b : Int) : Prop :=
  s.btab (vidx a) ≤ s.btab (vidx b)

/-- The comparator `trail_bumped_smaller`: ascending sum of prior bump
stamp and trail position, ties broken by ascending trail position. -/
def trailBumpedSmaller (s : State) (a b : Int) : Prop :=
  s.btab (vidx a) + litPos s a < s.btab (vidx b) + litPos s b ∨
    (s.btab (vidx a) + litPos s a = s.btab (vidx b) + litPos s b ∧
      litPos s a ≤ litPos s b)

instance (s : State) : DecidableRel (bumpedEarlier s) := by
  intro a b
  unfold bumpedEarlier
  infer_instance

instance (s : State) : DecidableRel (trailBumpedSmaller s) := by
  intro a b
  unfold trailBumpedSmaller
  infer_instance

/-- Modelled from the spec: `relative (a, b)` is the ratio `a / b`
(`0` when `b = 0`), a statistics helper whose source is not part of the
repository excerpt. -/
def relative (a b : Nat) : ℚ := if b = 0 then 0 else (a : ℚ) / (b : ℚ)

/-- Modelled from the spec: `percent (a, b)` is `relative (100 * a, b)`. -/
def percent (a b : Nat) : ℚ := relative (100 * a) b

/-- The condition under which `bump_variables` switches to the
trail-weighted order: the trail-bump option is set, the
propagations-per-decision ratio exceeds its threshold, and the percentage
of last-level bumps exceeds its threshold. -/
def trailBumpCondition (s : State) : Prop :=
  s.opts.trailbump = true ∧
    (s.opts.trailbumprops : ℚ) < relative s.statsPropagations s.statsDecisions ∧
    (s.opts.trailbumplast : ℚ) < percent s.statsBumplast s.statsBumped

instance (s : State) : Decidable (trailBumpCondition s) := by
  unfold trailBumpCondition
  infer_instance

/-- The order in which `Internal::bump_variables` processes the analyzed
batch: the batch sorted by `trail_bumped_smaller` when the adaptive
condition holds, and by `bumped_earlier` otherwise. -/
def bumpOrder (s : State) : List Int :=
  if trailBumpCondition s then
    s.analyzed.insertionSort (trailBumpedSmaller s)
  else
    s.analyzed.insertionSort (bumpedEarlier s)

/-- `Internal::bump_variables`: sort the analyzed batch by the chosen
comparator (recording a trail-bump use in the adaptive case) and bump
every variable in the sorted order. -/
def bump_variables (s : State) : State :=
  let s1 := if trailBumpCondition s then
              { s with statsTrailbumped := s.statsTrailbumped + 1 }
            else s
  (bumpOrder s).foldl bump_variable s1

/-- `Internal::bump_clause`: stamp the clause with a freshly incremented
global `analyzed` time stamp. -/
def bump_clause (s : State) (cid : Nat) : State :=
  { s with
      statsAnalyzed := s.statsAnalyzed + 1,
      cstore := (Function.update s.cstore cid
        ({ s.cstore cid with analyzedTS := s.statsAnalyzed + 1 })) }

/-- Modelled from the spec: the comparator `analyzed_earlier` (whose
source is not part of the repository excerpt) orders clauses by ascending
previous `analyzed` time stamp. -/
def analyzedEarlier (s : State) (a b : Nat) : Prop :=
  (s.cstore a).analyzedTS ≤ (s.cstore b).analyzedTS

instance (s : State) : DecidableRel (analyzedEarlier s) := by
  intro a b
  unfold analyzedEarlier
  infer_instance

/-- The order in which `Internal::bump_resolved_clauses` stamps the
resolved batch: ascending previous time stamp. -/
def resolvedOrder (s : State) : List Nat :=
  s.resolved.insertionSort (analyzedEarlier s)

/-- `Internal::bump_resolved_clauses`: sort the resolved batch by
ascending previous time stamp, stamp each clause in that order with a new
strictly increasing global time stamp, and clear the batch. -/
def bump_resolved_clauses (s : State) : State :=
  { (resolvedOrder s).foldl bump_clause s with resolved := [] }

/-- `Internal::save_as_resolved_clause`: ignore irredundant clauses; mark
a redundant hyper-binary resolved clause `used`; push the clause onto the
resolved batch only when it also carries an `analyzed` time stamp slot. -/
def save_as_resolved_clause (s : State) (cid : Nat) : State :=
  let c := s.cstore cid
  if c.redundant = false then s
  else
    let s1 := if c.hbr = true then
                { s with
                    cstore := (Function.update s.cstore cid
                      ({ c with used := true })) }
              else s
    if c.have_analyzed = false then s1
    else { s1 with resolved := s1.resolved ++ [cid] }

/-- Update of the level record's lowest touched trail position
(`if (v.trail < l.trail) l.trail = v.trail`, with the untouched record
modelled as `none`). -/
def updateTrailMin (m : Option Nat) (p : Nat) : Option Nat :=
  match m with
  | none => some p
  | some q => some (min q p)

/-- `Internal::analyze_literal`: a literal not seen yet and not fixed is
added to the learned clause when on a lower level, registers its level
(appending it to the active-levels list on first contribution, lowering
the level's minimum touched trail position), is marked seen, is pushed
onto the analyzed batch, and increments `open` when on the current level.
Returns the updated state and `open` counter. -/
def analyze_literal (s : State) (lit : Int) (opn : Int) : State × Int :=
  let idx := vidx lit
  if seenF s idx = true then (s, opn)
  else
    let v := s.vtab idx
    if v.level = 0 then (s, opn)
    else
      let s1 := if v.level < s.level then
                  { s with clause := s.clause ++ [lit] }
                else s
      let l := s1.control v.level
      let s2 := if l.seenCount = 0 then
                  { s1 with levels := s1.levels ++ [v.level] }
                else s1
      let s3 := { s2 with
                    control := (Function.update s2.control v.level
                      ({ seenCount := l.seenCount + 1,
                         trailMin := updateTrailMin l.trailMin v.trailPos })) }
      let s4 := { s3 with
                    ftab := (Function.update s3.ftab idx
                      ({ s3.ftab idx with seen := true })),
                    analyzed := s3.analyzed ++ [lit] }
      (s4, if v.level = s.level then opn + 1 else opn)

/-- The literal loop of `Internal::analyze_reason`: analyze every literal
of the list other than the resolved literal `lit`. -/
def analyzeLits (lit : Int) (lits : List Int) (p : State × Int) :
    State × Int :=
  lits.foldl
    (fun acc other =>
      if other ≠ lit then analyze_literal acc.1 other acc.2 else acc) p

/-- `Internal::analyze_reason`: offer the reason clause to the clause
activity tracker, then analyze every literal of the reason other than the
resolved literal `lit`. -/
def analyze_reason (s : State) (lit : Int) (cid : Nat) (opn : Int) :
    State × Int :=
  let s1 := save_as_resolved_clause s cid
  analyzeLits lit (s1.cstore cid).lits (s1, opn)

/-- The scan `while (!flags (uip = *--i).seen)` of `Internal::analyze`:
starting below position `i`, find the highest trail position holding a
literal whose variable is seen, together with that literal. -/
def findSeen (s : State) : Nat → Option (Nat × Int)
  | 0 => none
  | j + 1 =>
    let u := s.trail.getD j 0
    if seenF s (vidx u) = true then some (j, u) else findSeen s j

/-- The backward resolution walk of `Internal::analyze` (`for (;;)`):
resolve the current reason (or analyze a single literal when the pivot
has no reason), scan the trail backwards for the next seen literal,
and stop when the `open` counter hits zero; the pivot at termination is
the first UIP.  `fuel` bounds the recursion (the trail cursor strictly
decreases, so `trail.length + 1` suffices). -/
def walkAux (s : State) (reason : Option Nat) (uip : Int) (opn : Int)
    (i : Nat) : Nat → State × Int
  | 0 => (s, uip)
  | fuel + 1 =>
    let p : State × Int := match reason with
             | some cid => analyze_reason s uip cid opn
             | none => analyze_literal s 0 opn
    match findSeen p.1 i with
    | none => (p.1, 0)
    | some (j, u) =>
      if p.2 - 1 = 0 then (p.1, u)
      else walkAux p.1 ((p.1.vtab (vidx u)).reason) u (p.2 - 1) j fuel

/-- The first-UIP derivation of `Internal::analyze`: run the backward
resolution walk from the conflict and append the negation of the first
UIP to the learned clause. -/
def analyzeUIP (s : State) (cid : Nat) : State × Int :=
  let p := walkAux s (some cid) 0 0 s.trail.length (s.trail.length + 1)
  ({ p.1 with clause := p.1.clause ++ [-p.2] }, p.2)

/-- The glue and statistics section of `Internal::analyze`: update the
fast and slow glue averages with the number of contributing levels and
add the clause size to the learned-literal counter. -/
def analyzeStats (s : State) : State :=
  let glue := s.levels.length
  { s with fastGlueHist := glue :: s.fastGlueHist,
           slowGlueHist := glue :: s.slowGlueHist,
           statsLearned := s.statsLearned + s.clause.length }

/-- The minimization and size-statistics section of `Internal::analyze`:
minimize the clause when it has more than one literal and the option is
set (the minimizer itself is external, modelled as the parameter `mini`
transforming the clause literal list), then update the unit and binary
counters and the size average from the post-minimization size. -/
def analyzeMini (mini : List Int → List Int) (s : State) : State :=
  let s1 := if 1 < s.clause.length ∧ s.opts.minimize = true then
              { s with clause := mini s.clause }
            else s
  let size := s1.clause.length
  { s1 with statsUnits := s1.statsUnits + (if size = 1 then 1 else 0),
            statsBinaries := s1.statsBinaries + (if size = 2 then 1 else 0),
            sizeAvgHist := size :: s1.sizeAvgHist }

/-- Modelled from the spec: the comparator `trail_larger` (whose source is
not part of the repository excerpt) orders clause literals by descending
assignment level, ties broken by assignment recency. -/
def trailLarger (s : State) (a b : Int) : Prop :=
  litLevel s b < litLevel s a ∨
    (litLevel s a = litLevel s b ∧ litPos s b ≤ litPos s a)

instance (s : State) : DecidableRel (trailLarger s) := by
  intro a b
  unfold trailLarger
  infer_instance

/-- Modelled from the spec: `new_learned_redundant_clause` (in the clause
store, not part of the repository excerpt) materializes a new redundant
clause from the current clause literal sequence, tagged with the given
glue; only long, high-glue clauses carry an `analyzed` time stamp slot.
Returns the state and the new clause's identifier. -/
def new_learned_redundant_clause (s : State) (glue : Nat) : State × Nat :=
  let c : ClauseRec :=
    { lits := s.clause, redundant := true, hbr := false, used := false,
      have_analyzed :=
        decide (s.opts.keepsize < s.clause.length ∧ s.opts.keepglue < glue),
      analyzedTS := 0, glue := glue }
  ({ s with cstore := (Function.update s.cstore s.nextCid c),
            nextCid := s.nextCid + 1 }, s.nextCid)

/-- Modelled from the spec: `backtrack` (not part of the repository
excerpt) truncates the trail back to the jump level, unassigning every
variable above it, and makes the jump level current. -/
def backtrack (s : State) (jump : Nat) : State :=
  { s with
      trail := s.trail.filter (fun lit => litLevel s lit ≤ jump),
      valtab := (fun idx =>
        if jump < (s.vtab idx).level then 0 else s.valtab idx),
      level := jump }

/-- Modelled from the spec: `assign_driving` (not part of the repository
excerpt) assigns the literal at the current level with the driving clause
as its reason and appends it to the trail. -/
def assign_driving (s : State) (lit : Int) (cid : Nat) : State :=
  { s with
      valtab := (Function.update s.valtab (vidx lit)
        (if lit < 0 then -1 else 1)),
      vtab := (Function.update s.vtab (vidx lit)
        ({ level := s.level, trailPos := s.trail.length,
           reason := some cid })),
      trail := s.trail ++ [lit] }

/-- Modelled from the spec: `assign_unit` (not part of the repository
excerpt) records the literal as a fixed top-level unit: it is assigned at
level 0 with no reason, appended to the trail, and `learn_unit_clause`
(from the source) fixes its variable. -/
def assign_unit (s : State) (lit : Int) : State :=
  let s1 := { s with
                valtab := (Function.update s.valtab (vidx lit)
                  (if lit < 0 then -1 else 1)),
                vtab := (Function.update s.vtab (vidx lit)
                  ({ level := 0, trailPos := s.trail.length, reason := none })),
                trail := s.trail ++ [lit] }
  learn_unit_clause s1 lit

/-- The backjump section of `Internal::analyze`: with more than one
literal left, sort the clause by `trail_larger`, create the driving
clause, jump to the level of the second literal, update the jump average,
backtrack and assign the flipped first UIP with the driving clause as
reason; with a single literal left, flag iteration, update the jump
average with 0, backtrack to the root and record the unit. -/
def analyzeBackjump (uip : Int) (glue : Nat) (s : State) : State :=
  if 1 < s.clause.length then
    let sorted := s.clause.insertionSort (trailLarger s)
    let s1 := { s with clause := sorted }
    let p := new_learned_redundant_clause s1 glue
    let jump := litLevel p.1 (sorted.getD 1 0)
    let s2 := { p.1 with jumpAvgHist := jump :: p.1.jumpAvgHist }
    let s3 := backtrack s2 jump
    assign_driving s3 (-uip) p.2
  else
    let s1 := { s with iterating := true, jumpAvgHist := 0 :: s.jumpAvgHist }
    let s2 := backtrack s1 0
    assign_unit s2 (-uip)

/-- One step of `Internal::clear_seen`: drop the `seen` flag of one
analyzed literal's variable. -/
def clearSeenStep (st : State) (lit : Int) : State :=
  { st with
      ftab := (Function.update st.ftab (vidx lit)
        ({ st.ftab (vidx lit) with seen := false })) }

/-- `Internal::clear_seen`: clear the `seen` flag of every variable in
the analyzed batch and empty the batch. -/
def clear_seen (s : State) : State :=
  { s.analyzed.foldl clearSeenStep s with analyzed := [] }

/-- One step of `Internal::clear_levels`: reset one touched level
record. -/
def clearLevelsStep (st : State) (lvl : Nat) : State :=
  { st with control := Function.update st.control lvl emptyLevel }

/-- `Internal::clear_levels`: reset every touched decision-level record
and empty the active-levels list. -/
def clear_levels (s : State) : State :=
  { s.levels.foldl clearLevelsStep s with levels := [] }

/-- The cleanup section of `Internal::analyze`: clear the seen flags,
the clause literal buffer, the touched level records, and the conflict
reference. -/
def analyzeCleanup (s : State) : State :=
  { clear_levels { clear_seen s with clause := [] } with conflict := none }

/-- `Internal::analyze`: at decision level 0 learn the empty clause and
stop; otherwise derive the first-UIP clause by the backward resolution
walk, commit the resolved-clause batch, update glue and size statistics,
minimize, bump the analyzed variables, backjump and assign, and clean up
the scratch state. -/
def analyze (mini : List Int → List Int) (s : State) : State :=
  match s.conflict with
  | none => s
  | some cid =>
    if s.level = 0 then learn_empty_clause s
    else
      let p := analyzeUIP s cid
      let s3 := bump_resolved_clauses p.1
      let glue := s3.levels.length
      let s6 := analyzeMini mini (analyzeStats s3)
      let s8 := bump_variables s6
      analyzeCleanup (analyzeBackjump p.2 glue s8)

/-- `Internal::iterate`: drop the iterating flag (the report itself is
I/O and outside the model). -/
def iterate (s : State) : State := { s with iterating := false }

/-- The state of `Internal::analyze` at the start of its cleanup
section: the backjump section applied to the bumped, minimized,
statistics-updated commit of the first-UIP walk (the positive-level
pipeline of `analyze` without the final cleanup). -/
def preCleanup (mini : List Int → List Int) (s : State) (cid : Nat) :
    State :=
  analyzeBackjump (analyzeUIP s cid).2
    (bump_resolved_clauses (analyzeUIP s cid).1).levels.length
    (bump_variables (analyzeMini mini (analyzeStats
      (bump_resolved_clauses (analyzeUIP s cid).1))))

/-! ### Concrete states used as witnesses -/

/-- Flags of an untouched active variable. -/
def cleanFlags : FlagsRec :=
  { seen := false, poison := false, removable := false, keep := false,
    status := VStatus.active }

/-- A default option setting (trail bumping and minimization off). -/
def defOpts : Opts :=
  { trailbump := false, trailbumprops := 0, trailbumplast := 0,
    minimize := false, keepsize := 2, keepglue := 2 }

/-- A clause record with no interesting attributes. -/
def defClause : ClauseRec :=
  { lits := [], redundant := false, hbr := false, used := false,
    have_analyzed := false, analyzedTS := 0, glue := 0 }

/-- A state with every scratch structure empty and three unassigned
variables; used as the base of the concrete witness states. -/
def baseState : State :=
  { trail := [], level := 0,
    valtab := fun _ => 0,
    vtab := fun _ => { level := 0, trailPos := 0, reason := none },
    ftab := fun _ => cleanFlags,
    btab := fun idx => idx,
    control := fun _ => emptyLevel,
    queue := [3, 2, 1], queueUnassigned := none,
    analyzed := [], clause := [], levels := [], resolved := [],
    cstore := fun _ => defClause,
    nextCid := 2, conflict := none, unsat := false, iterating := false,
    proofTrace := some [],
    statsBumped := 3, statsBumplast := 0, statsAnalyzed := 10,
    statsLearned := 0, statsUnits := 0, statsBinaries := 0, statsFixed := 0,
    statsTrailbumped := 0, statsPropagations := 5, statsDecisions := 2,
    fastGlueHist := [], slowGlueHist := [], sizeAvgHist := [],
    jumpAvgHist := [], opts := defOpts }

/-- The concrete scenario of the specification: decisions `1@1` and `2@2`,
propagation of `3@2` with reason clause 1 = `(-1 -2 3)`, and a conflict on
clause 0 = `(-2 -3)`.  Analysis finds first UIP `2`, learns `(-2 -1)`, and
jumps to level 1. -/
def scenarioState : State :=
  { baseState with
      trail := [1, 2, 3], level := 2,
      valtab := fun idx => if idx = 1 ∨ idx = 2 ∨ idx = 3 then 1 else 0,
      vtab := fun idx =>
        if idx = 1 then { level := 1, trailPos := 0, reason := none }
        else if idx = 2 then { level := 2, trailPos := 1, reason := none }
        else if idx = 3 then { level := 2, trailPos := 2, reason := some 1 }
        else { level := 0, trailPos := 0, reason := none },
      cstore := fun c =>
        if c = 0 then
          { defClause with lits := [-2, -3], redundant := true,
                           have_analyzed := true, analyzedTS := 7, glue := 1 }
        else if c = 1 then
          { defClause with lits := [-1, -2, 3], redundant := true,
                           have_analyzed := true, analyzedTS := 4, glue := 2 }
        else defClause,
      conflict := some 0 }

/-- A one-decision scenario deriving a unit: decision `1@1` and a conflict
on clause 0 = `(-1)`; analysis learns the unit `-1`. -/
def unitState : State :=
  { baseState with
      trail := [1], level := 1,
      valtab := fun idx => if idx = 1 then 1 else 0,
      vtab := fun idx =>
        if idx = 1 then { level := 1, trailPos := 0, reason := none }
        else { level := 0, trailPos := 0, reason := none },
      cstore := fun c =>
        if c = 0 then
          { defClause with lits := [-1], redundant := true,
                           have_analyzed := true, analyzedTS := 7, glue := 1 }
        else defClause,
      conflict := some 0 }

/-- A level-0 state holding a conflict: analysing it must conclude
unsatisfiability. -/
def rootConflictState : State :=
  { baseState with
      cstore := fun c =>
        if c = 0 then { defClause with lits := [-1], redundant := true }
        else defClause,
      conflict := some 0 }

/-- A state whose queue has variable `1` at the front with a stale bump
stamp, exhibiting the early return of `bump_variable`. -/
def frontQueueState : State :=
  { baseState with queue := [1, 2], btab := fun _ => 0, statsBumped := 5 }

/-- A state holding an irredundant hyper-binary-resolved clause, offered
to the clause activity tracker. -/
def irredundantHbrState : State :=
  { baseState with
      cstore := fun c =>
        if c = 0 then { defClause with hbr := true, have_analyzed := true }
        else defClause }

instance (s : State) : IsTotal Int (bumpedEarlier s) :=
  ⟨fun _ _ => Nat.le_total _ _⟩

instance (s : State) : IsTrans Int (bumpedEarlier s) :=
  ⟨fun _ _ _ => Nat.le_trans⟩

instance (s : State) : IsTotal Int (trailBumpedSmaller s) :=
  ⟨fun a b => by unfold trailBumpedSmaller; omega⟩

instance (s : State) : IsTrans Int (trailBumpedSmaller s) :=
  ⟨fun a b c ha hb => by
    unfold trailBumpedSmaller at ha hb ⊢
    omega⟩

instance (s : State) : IsTotal Nat (analyzedEarlier s) :=
  ⟨fun _ _ => Nat.le_total _ _⟩

instance (s : State) : IsTrans Nat (analyzedEarlier s) :=
  ⟨fun _ _ _ => Nat.le_trans⟩

instance (s : State) : IsTotal Int (trailLarger s) :=
  ⟨fun a b => by unfold trailLarger; omega⟩

instance (s : State) : IsTrans Int (trailLarger s) :=
  ⟨fun a b c ha hb => by
    unfold trailLarger at ha hb ⊢
    omega⟩

/-! ### Specification-side predicates used by the theorems -/

/-- The clause produced by the minimization section (the post-minimization
literal list). -/
def miniClause (mini : List Int → List Int) (s : State) : List Int :=
  if 1 < s.clause.length ∧ s.opts.minimize = true then mini s.clause
  else s.clause

/-- Whether trail position `k` holds a seen variable of the current
decision level. -/
def openPred (s : State) (k : Nat) : Bool :=
  seenF s (vidx (s.trail.getD k 0)) &&
    decide (litLevel s (s.trail.getD k 0) = s.level)

/-- The number of trail positions below `i` holding a seen variable of
the current decision level: the quantity tracked by the `open` counter of
the resolution walk. -/
def openCount (s : State) (i : Nat) : Nat :=
  (List.range i).countP (openPred s)

/-- The precondition on the literals of a clause resolved against pivot
`u` while the trail cursor is at `i`: every literal other than the pivot
is either already seen or is a falsified literal of a variable assigned
strictly below the cursor. -/
def PlitsOK (s0 s : State) (lits : List Int) (u : Int) (i : Nat) : Prop :=
  ∀ l ∈ lits, l ≠ u →
    seenF s (vidx l) = true ∨
    (l ≠ 0 ∧ val s0 l < 0 ∧ litPos s0 l < i ∧
      s0.trail.getD (litPos s0 l) 0 = -l)

/-- The fields of the state that the resolution walk never writes: the
walk only touches the clause buffer, the analyzed batch, the
active-levels list, the level records, the `seen` flags, the resolved
batch and the `used` bits of clauses. -/
structure WalkFrame (s t : State) : Prop where
  trail_eq : t.trail = s.trail
  level_eq : t.level = s.level
  vtab_eq : t.vtab = s.vtab
  valtab_eq : t.valtab = s.valtab
  btab_eq : t.btab = s.btab
  queue_eq : t.queue = s.queue
  qun_eq : t.queueUnassigned = s.queueUnassigned
  nextCid_eq : t.nextCid = s.nextCid
  conflict_eq : t.conflict = s.conflict
  unsat_eq : t.unsat = s.unsat
  iterating_eq : t.iterating = s.iterating
  proof_eq : t.proofTrace = s.proofTrace
  sbumped_eq : t.statsBumped = s.statsBumped
  sbumplast_eq : t.statsBumplast = s.statsBumplast
  sanalyzed_eq : t.statsAnalyzed = s.statsAnalyzed
  slearned_eq : t.statsLearned = s.statsLearned
  sunits_eq : t.statsUnits = s.statsUnits
  sbinaries_eq : t.statsBinaries = s.statsBinaries
  sfixed_eq : t.statsFixed = s.statsFixed
  strailbumped_eq : t.statsTrailbumped = s.statsTrailbumped
  sprop_eq : t.statsPropagations = s.statsPropagations
  sdec_eq : t.statsDecisions = s.statsDecisions
  fast_eq : t.fastGlueHist = s.fastGlueHist
  slow_eq : t.slowGlueHist = s.slowGlueHist
  size_eq : t.sizeAvgHist = s.sizeAvgHist
  jump_eq : t.jumpAvgHist = s.jumpAvgHist
  opts_eq : t.opts = s.opts
  flags_eq : ∀ idx, (t.ftab idx).poison = (s.ftab idx).poison ∧
      (t.ftab idx).removable = (s.ftab idx).removable ∧
      (t.ftab idx).keep = (s.ftab idx).keep ∧
      (t.ftab idx).status = (s.ftab idx).status
  cstore_eq : ∀ c, (t.cstore c).lits = (s.cstore c).lits ∧
      (t.cstore c).redundant = (s.cstore c).redundant ∧
      (t.cstore c).hbr = (s.cstore c).hbr ∧
      (t.cstore c).have_analyzed = (s.cstore c).have_analyzed ∧
      (t.cstore c).analyzedTS = (s.cstore c).analyzedTS ∧
      (t.cstore c).glue = (s.cstore c).glue

/-- The invariant of the backward resolution walk, relating the evolving
state `s` to the state `s0` at conflict entry, with trail cursor `i` and
`open` counter `opn`. -/
structure WalkInv (s0 s : State) (i : Nat) (opn : Int) : Prop where
  frame : WalkFrame s0 s
  hi : i ≤ s0.trail.length
  hopen : opn = (openCount s i : Int)
  hclause : ∀ l ∈ s.clause, val s0 l < 0 ∧ 0 < litLevel s0 l ∧
      litLevel s0 l < s0.level ∧ seenF s (vidx l) = true
  hnodup : (s.clause.map vidx).Nodup
  hseen_an : ∀ idx, seenF s idx = true →
      seenF s0 idx = true ∨ ∃ l ∈ s.analyzed, vidx l = idx
  han_seen : ∀ l ∈ s.analyzed, seenF s (vidx l) = true
  hctrl : ∀ lvl, lvl ∉ s.levels → s.control lvl = s0.control lvl

/-- Well-formedness of a solver state holding the conflict `cid` at a
positive decision level: the trail is consistent (satisfied nonzero
literals, positions recorded correctly, levels monotone and bounded),
reasons are falsified except for their propagated literal and precede it
on the trail, the conflict clause is falsified with a current-level
literal, decisions come first on their level, and the analysis scratch
state relevant to the walk is clean. -/
structure WFState (s : State) (cid : Nat) : Prop where
  hlevel : 0 < s.level
  w1 : ∀ k, k < s.trail.length →
      s.trail.getD k 0 ≠ 0 ∧ 0 < val s (s.trail.getD k 0) ∧
        litPos s (s.trail.getD k 0) = k
  w2 : ∀ k, k < s.trail.length → litLevel s (s.trail.getD k 0) ≤ s.level
  w3 : ∀ j, j < s.trail.length → ∀ k, k < s.trail.length → j ≤ k →
      litLevel s (s.trail.getD j 0) ≤ litLevel s (s.trail.getD k 0)
  w4 : ∀ k, k < s.trail.length → ∀ rc,
      (s.vtab (vidx (s.trail.getD k 0))).reason = some rc →
      ∀ l ∈ (s.cstore rc).lits, vidx l ≠ vidx (s.trail.getD k 0) →
        l ≠ 0 ∧ val s l < 0 ∧ litPos s l < k ∧
          s.trail.getD (litPos s l) 0 = -l
  w5a : ∀ l ∈ (s.cstore cid).lits,
      l ≠ 0 ∧ val s l < 0 ∧ litPos s l < s.trail.length ∧
        s.trail.getD (litPos s l) 0 = -l
  w5b : ∃ l ∈ (s.cstore cid).lits, litLevel s l = s.level
  w6 : ∀ k, k < s.trail.length →
      (s.vtab (vidx (s.trail.getD k 0))).reason = none →
      0 < litLevel s (s.trail.getD k 0) →
      ∀ j, j < s.trail.length →
        litLevel s (s.trail.getD j 0) = litLevel s (s.trail.getD k 0) →
        k ≤ j
  clean1 : ∀ k, k < s.trail.length →
      seenF s (vidx (s.trail.getD k 0)) = false
  clean2 : s.clause = []
  clean3 : s.analyzed = []
  clean5 : ∀ k, k < s.trail.length →
      (s.control (litLevel s (s.trail.getD k 0))).seenCount = 0

/-- Clean scratch state at entry of `analyze`: no flags set anywhere, all
scratch lists empty, all level records reset. -/
structure CleanScratch (s : State) : Prop where
  hseen : ∀ idx, seenF s idx = false
  hpoison : ∀ idx, (s.ftab idx).poison = false
  hremovable : ∀ idx, (s.ftab idx).removable = false
  hkeep : ∀ idx, (s.ftab idx).keep = false
  han : s.analyzed = []
  hclause : s.clause = []
  hlevels : s.levels = []
  hctrl : ∀ lvl, s.control lvl = emptyLevel

/-! ### Frame lemmas -/

/-- A projection that every step of a fold preserves is preserved by the
whole fold. -/
theorem foldl_preserves {α β : Type} (f : State → α → State) (F : State → β)
    (hf : ∀ t a, F (f t a) = F t) :
    ∀ (l : List α) (s : State), F (l.foldl f s) = F s := by
  intro l
  induction l with
  | nil => intro s; rfl
  | cons a l ih => intro s; rw [List.foldl_cons, ih, hf]

theorem WalkFrame.refl (s : State) : WalkFrame s s :=
  ⟨rfl, rfl, rfl, rfl, rfl, rfl, rfl, rfl, rfl, rfl, rfl, rfl, rfl, rfl,
   rfl, rfl, rfl, rfl, rfl, rfl, rfl, rfl, rfl, rfl, rfl, rfl, rfl,
   fun _ => ⟨rfl, rfl, rfl, rfl⟩, fun _ => ⟨rfl, rfl, rfl, rfl, rfl, rfl⟩⟩

theorem WalkFrame.trans {s t u : State} (h1 : WalkFrame s t)
    (h2 : WalkFrame t u) : WalkFrame s u :=
  ⟨h2.trail_eq.trans h1.trail_eq, h2.level_eq.trans h1.level_eq,
   h2.vtab_eq.trans h1.vtab_eq, h2.valtab_eq.trans h1.valtab_eq,
   h2.btab_eq.trans h1.btab_eq, h2.queue_eq.trans h1.queue_eq,
   h2.qun_eq.trans h1.qun_eq, h2.nextCid_eq.trans h1.nextCid_eq,
   h2.conflict_eq.trans h1.conflict_eq, h2.unsat_eq.trans h1.unsat_eq,
   h2.iterating_eq.trans h1.iterating_eq, h2.proof_eq.trans h1.proof_eq,
   h2.sbumped_eq.trans h1.sbumped_eq, h2.sbumplast_eq.trans h1.sbumplast_eq,
   h2.sanalyzed_eq.trans h1.sanalyzed_eq, h2.slearned_eq.trans h1.slearned_eq,
   h2.sunits_eq.trans h1.sunits_eq, h2.sbinaries_eq.trans h1.sbinaries_eq,
   h2.sfixed_eq.trans h1.sfixed_eq,
   h2.strailbumped_eq.trans h1.strailbumped_eq,
   h2.sprop_eq.trans h1.sprop_eq, h2.sdec_eq.trans h1.sdec_eq,
   h2.fast_eq.trans h1.fast_eq, h2.slow_eq.trans h1.slow_eq,
   h2.size_eq.trans h1.size_eq, h2.jump_eq.trans h1.jump_eq,
   h2.opts_eq.trans h1.opts_eq,
   fun idx => ⟨((h2.flags_eq idx).1).trans (h1.flags_eq idx).1,
     ((h2.flags_eq idx).2.1).trans (h1.flags_eq idx).2.1,
     ((h2.flags_eq idx).2.2.1).trans (h1.flags_eq idx).2.2.1,
     ((h2.flags_eq idx).2.2.2).trans (h1.flags_eq idx).2.2.2⟩,
   fun c => ⟨((h2.cstore_eq c).1).trans (h1.cstore_eq c).1,
     ((h2.cstore_eq c).2.1).trans (h1.cstore_eq c).2.1,
     ((h2.cstore_eq c).2.2.1).trans (h1.cstore_eq c).2.2.1,
     ((h2.cstore_eq c).2.2.2.1).trans (h1.cstore_eq c).2.2.2.1,
     ((h2.cstore_eq c).2.2.2.2.1).trans (h1.cstore_eq c).2.2.2.2.1,
     ((h2.cstore_eq c).2.2.2.2.2).trans (h1.cstore_eq c).2.2.2.2.2⟩⟩

/-- Updating only the scratch fields of a state keeps the walk frame. -/
theorem walkFrame_update (s : State) (cl an : List Int) (lv : List Nat)
    (ct : Nat → LevelRec) (ft : Nat → FlagsRec) (rv : List Nat)
    (cs : Nat → ClauseRec)
    (hft : ∀ idx, (ft idx).poison = (s.ftab idx).poison ∧
      (ft idx).removable = (s.ftab idx).removable ∧
      (ft idx).keep = (s.ftab idx).keep ∧
      (ft idx).status = (s.ftab idx).status)
    (hcs : ∀ c, (cs c).lits = (s.cstore c).lits ∧
      (cs c).redundant = (s.cstore c).redundant ∧
      (cs c).hbr = (s.cstore c).hbr ∧
      (cs c).have_analyzed = (s.cstore c).have_analyzed ∧
      (cs c).analyzedTS = (s.cstore c).analyzedTS ∧
      (cs c).glue = (s.cstore c).glue) :
    WalkFrame s { s with clause := cl, analyzed := an, levels := lv,
                         control := ct, ftab := ft, resolved := rv,
                         cstore := cs } :=
  ⟨rfl, rfl, rfl, rfl, rfl, rfl, rfl, rfl, rfl, rfl, rfl, rfl, rfl, rfl,
   rfl, rfl, rfl, rfl, rfl, rfl, rfl, rfl, rfl, rfl, rfl, rfl, rfl,
   hft, hcs⟩

/-- `bump_variable` at a non-front variable, written as one record
update. -/
theorem bump_variable_eq (s : State) (lit : Int)
    (h : ¬ s.queue.head? = some (vidx lit)) :
    bump_variable s lit =
      { s with queue := vidx lit :: s.queue.erase (vidx lit),
               btab := Function.update s.btab (vidx lit) (s.statsBumped + 1),
               statsBumped := s.statsBumped + 1,
               statsBumplast := s.statsBumplast +
                 (if (s.vtab (vidx lit)).level = s.level then 1 else 0),
               queueUnassigned :=
                 if s.valtab (vidx lit) = 0 then some (vidx lit)
                 else s.queueUnassigned } := by
  unfold bump_variable
  rw [if_neg h]
  split_ifs <;> rfl

/-- `bump_variable` at the queue front is the identity. -/
theorem bump_variable_noop (s : State) (lit : Int)
    (h : s.queue.head? = some (vidx lit)) :
    bump_variable s lit = s := by
  unfold bump_variable
  rw [if_pos h]

/-- The minimization section, written as one record update. -/
theorem analyzeMini_eq (mini : List Int → List Int) (s : State) :
    analyzeMini mini s =
      { s with clause := miniClause mini s,
               statsUnits := s.statsUnits +
                 (if (miniClause mini s).length = 1 then 1 else 0),
               statsBinaries := s.statsBinaries +
                 (if (miniClause mini s).length = 2 then 1 else 0),
               sizeAvgHist := (miniClause mini s).length :: s.sizeAvgHist } := by
  unfold analyzeMini miniClause
  by_cases h : 1 < s.clause.length ∧ s.opts.minimize = true
  · rw [if_pos h, if_pos h]
  · rw [if_neg h, if_neg h]

/-! ### C2: conflict at decision level 0 -/

/-- C2: invoked on a conflict while at decision level 0, `analyze` traces
the empty clause to the proof logger if one is attached, raises the
process-wide `unsat` flag, and changes nothing else: no resolution walk,
no bumping, and no backtracking happen. -/
theorem analyze_level0_unsat (mini : List Int → List Int) (s : State)
    (cid : Nat) (hconf : s.conflict = some cid) (hlvl : s.level = 0) :
    analyze mini s =
      { s with proofTrace := s.proofTrace.map (· ++ [PEvent.emptyCl]),
               unsat := true } := by
  simp only [analyze, hconf]
  rw [if_pos hlvl]
  unfold learn_empty_clause
  rw [hconf]

/-- Witness for C2 at a concrete level-0 state. -/
theorem analyze_level0_unsat_witness :
    rootConflictState.conflict = some 0 ∧ rootConflictState.level = 0 ∧
      analyze id rootConflictState =
        { rootConflictState with
            proofTrace := rootConflictState.proofTrace.map
              (· ++ [PEvent.emptyCl]),
            unsat := true } :=
  ⟨rfl, rfl, analyze_level0_unsat id rootConflictState 0 rfl rfl⟩

/-! ### C8: candidacy of reason clauses -/

/-- C8 (amended): a reason clause offered to the tracker joins the
resolved batch iff it is redundant and carries an `analyzed` slot, and
its `used` flag is set iff it was set before or the clause is redundant
and hyper-binary resolved — in particular a redundant hyper-binary
resolved clause is marked used whether or not it becomes a candidate,
but an irredundant one is not. -/
theorem save_as_resolved_clause_spec (s : State) (cid : Nat) :
    ((save_as_resolved_clause s cid).resolved = s.resolved ++ [cid] ↔
      (s.cstore cid).redundant = true ∧
        (s.cstore cid).have_analyzed = true) ∧
    ((save_as_resolved_clause s cid).cstore cid).used =
      ((s.cstore cid).used ||
        ((s.cstore cid).redundant && (s.cstore cid).hbr)) ∧
    ((save_as_resolved_clause s cid).resolved = s.resolved ∨
      (save_as_resolved_clause s cid).resolved = s.resolved ++ [cid]) := by
  have hlen : ¬ s.resolved = s.resolved ++ [cid] := by
    intro h
    have := congrArg List.length h
    simp at this
  unfold save_as_resolved_clause
  by_cases h1 : (s.cstore cid).redundant = false
  · rw [if_pos h1]
    refine ⟨?_, ?_, Or.inl rfl⟩
    · simp [hlen, h1]
    · simp [h1]
  · rw [if_neg h1]
    have h1' : (s.cstore cid).redundant = true := by
      revert h1; cases (s.cstore cid).redundant <;> simp
    by_cases h2 : (s.cstore cid).hbr = true
    · rw [if_pos h2]
      by_cases h3 : (s.cstore cid).have_analyzed = false
      · rw [if_pos h3]
        refine ⟨?_, ?_, Or.inl rfl⟩
        · simp [hlen, h3]
        · simp [Function.update_same, h1', h2]
      · rw [if_neg h3]
        refine ⟨?_, ?_, Or.inr rfl⟩
        · simp [h1']
          revert h3; cases (s.cstore cid).have_analyzed <;> simp
        · simp [Function.update_same, h1', h2]
    · rw [if_neg h2]
      have h2' : (s.cstore cid).hbr = false := by
        revert h2; cases (s.cstore cid).hbr <;> simp
      by_cases h3 : (s.cstore cid).have_analyzed = false
      · rw [if_pos h3]
        refine ⟨?_, ?_, Or.inl rfl⟩
        · simp [hlen, h3]
        · simp [h2']
      · rw [if_neg h3]
        refine ⟨?_, ?_, Or.inr rfl⟩
        · simp [h1']
          revert h3; cases (s.cstore cid).have_analyzed <;> simp
        · simp [h2']

/-- Counterexample to C8 as stated: an irredundant hyper-binary resolved
clause is offered to the tracker, yet its `used` flag is not set — the
`used` marking is conditional on redundancy, not unconditional. -/
theorem save_as_resolved_clause_hbr_cex :
    (irredundantHbrState.cstore 0).hbr = true ∧
    (irredundantHbrState.cstore 0).redundant = false ∧
    (irredundantHbrState.cstore 0).used = false ∧
    save_as_resolved_clause irredundantHbrState 0 = irredundantHbrState ∧
    ((save_as_resolved_clause irredundantHbrState 0).cstore 0).used
      = false := by
  refine ⟨rfl, rfl, rfl, ?_, ?_⟩ <;> rfl

/-! ### C7: effects of bumping a variable -/

/-- C7 (amended): bumping a variable that is not already at the front of
the VMTF queue unlinks it and relinks it at the front, stamps it with the
freshly incremented global bump counter, bumps the last-level counter
exactly when the variable sits on the current decision level, and moves
the first-unassigned cursor to it exactly when it is unassigned; the
queue stays duplicate-free.  A variable already at the front is left
entirely unchanged. -/
theorem bump_variable_spec (s : State) (lit : Int)
    (h : ¬ s.queue.head? = some (vidx lit)) (hmem : vidx lit ∈ s.queue)
    (hnd : s.queue.Nodup) :
    (bump_variable s lit).queue =
      vidx lit :: s.queue.erase (vidx lit) ∧
    (bump_variable s lit).queue.head? = some (vidx lit) ∧
    (bump_variable s lit).queue.Perm s.queue ∧
    (bump_variable s lit).queue.Nodup ∧
    (bump_variable s lit).btab (vidx lit) = s.statsBumped + 1 ∧
    (bump_variable s lit).statsBumped = s.statsBumped + 1 ∧
    (bump_variable s lit).statsBumplast = s.statsBumplast +
      (if (s.vtab (vidx lit)).level = s.level then 1 else 0) ∧
    (bump_variable s lit).queueUnassigned =
      (if s.valtab (vidx lit) = 0 then some (vidx lit)
       else s.queueUnassigned) := by
  rw [bump_variable_eq s lit h]
  refine ⟨rfl, rfl, (List.perm_cons_erase hmem).symm, ?_, ?_, rfl, rfl, rfl⟩
  · refine List.Nodup.cons ?_ (hnd.erase _)
    intro hc
    exact ((List.Nodup.mem_erase_iff hnd).mp hc).1 rfl
  · exact Function.update_same _ _ _

/-- Counterexample to C7 as stated: bumping a variable already at the
front of the queue is a no-op — it is not restamped with a fresh counter
value, contradicting that the effects occur regardless of queue
position. -/
theorem bump_variable_front_cex :
    frontQueueState.queue.head? = some 1 ∧
    bump_variable frontQueueState 1 = frontQueueState ∧
    (bump_variable frontQueueState 1).btab 1 = 0 ∧
    frontQueueState.statsBumped = 5 ∧
    ¬ (bump_variable frontQueueState 1).btab 1 =
        frontQueueState.statsBumped + 1 := by
  refine ⟨rfl, rfl, rfl, rfl, ?_⟩
  decide

/-! ### C10: bumping twice in succession -/

/-- C10: bumping the same variable twice in immediate succession does not
duplicate it in the VMTF queue and leaves it at the front carrying a bump
stamp equal to the current value of the global bump counter.  The
hypothesis `hfront` is the queue invariant that the front variable's
stamp is the counter's latest value, which every bump preserves. -/
theorem bump_variable_twice_spec (s : State) (lit : Int)
    (hmem : vidx lit ∈ s.queue) (hnd : s.queue.Nodup)
    (hfront : ∀ j, s.queue.head? = some j → s.btab j = s.statsBumped) :
    (bump_variable (bump_variable s lit) lit).queue.head? =
      some (vidx lit) ∧
    (bump_variable (bump_variable s lit) lit).queue.Perm s.queue ∧
    (bump_variable (bump_variable s lit) lit).queue.Nodup ∧
    (bump_variable (bump_variable s lit) lit).btab (vidx lit) =
      (bump_variable (bump_variable s lit) lit).statsBumped := by
  by_cases h : s.queue.head? = some (vidx lit)
  · rw [bump_variable_noop s lit h, bump_variable_noop s lit h]
    exact ⟨h, List.Perm.refl _, hnd, hfront _ h⟩
  · have h1 := bump_variable_eq s lit h
    have hhead : (bump_variable s lit).queue.head? = some (vidx lit) := by
      rw [h1]
      rfl
    rw [bump_variable_noop _ lit hhead, h1]
    refine ⟨rfl, (List.perm_cons_erase hmem).symm, ?_, ?_⟩
    · refine List.Nodup.cons ?_ (hnd.erase _)
      intro hc
      exact ((List.Nodup.mem_erase_iff hnd).mp hc).1 rfl
    · exact Function.update_same _ _ _

/-- Witness for C10 at a concrete state. -/
theorem bump_variable_twice_spec_witness :
    (vidx 1 ∈ baseState.queue ∧ baseState.queue.Nodup ∧
      (∀ j, baseState.queue.head? = some j →
        baseState.btab j = baseState.statsBumped)) ∧
    ((bump_variable (bump_variable baseState 1) 1).queue.head? =
      some (vidx 1) ∧
    (bump_variable (bump_variable baseState 1) 1).queue.Perm
      baseState.queue ∧
    (bump_variable (bump_variable baseState 1) 1).queue.Nodup ∧
    (bump_variable (bump_variable baseState 1) 1).btab (vidx 1) =
      (bump_variable (bump_variable baseState 1) 1).statsBumped) :=
  have hfront : ∀ j, baseState.queue.head? = some j →
      baseState.btab j = baseState.statsBumped := by
    intro j hj
    rw [show baseState.queue.head? = some 3 from rfl] at hj
    injection hj with h
    subst h
    rfl
  ⟨⟨by decide, by decide, hfront⟩,
    bump_variable_twice_spec baseState 1 (by decide) (by decide) hfront⟩

/-! ### C5: ordering policy of the variable-bump batch -/

/-- C5: before bumping, the analyzed batch is sorted by ascending prior
bump stamp, except when the trail-bump option is on and both the
propagations-per-decision ratio and the last-level-bump percentage
exceed their thresholds, in which case it is sorted by ascending sum of
prior bump stamp and trail position with ties broken by trail position;
the variables are then bumped by folding over exactly that sorted
order. -/
theorem bump_variables_order_spec (s : State) :
    (bumpOrder s).Perm s.analyzed ∧
    (trailBumpCondition s →
      (bumpOrder s).Sorted (trailBumpedSmaller s)) ∧
    (¬ trailBumpCondition s → (bumpOrder s).Sorted (bumpedEarlier s)) ∧
    bump_variables s =
      (bumpOrder s).foldl bump_variable
        (if trailBumpCondition s then
          { s with statsTrailbumped := s.statsTrailbumped + 1 }
         else s) := by
  refine ⟨?_, ?_, ?_, rfl⟩
  · unfold bumpOrder
    split_ifs <;> exact List.perm_insertionSort _ _
  · intro hc
    unfold bumpOrder
    rw [if_pos hc]
    exact List.sorted_insertionSort _ _
  · intro hc
    unfold bumpOrder
    rw [if_neg hc]
    exact List.sorted_insertionSort _ _

/-- Witness for the amended C7 at a concrete non-front variable. -/
theorem bump_variable_spec_witness :
    (¬ baseState.queue.head? = some (vidx 1) ∧ vidx 1 ∈ baseState.queue ∧
      baseState.queue.Nodup) ∧
    ((bump_variable baseState 1).queue =
      vidx 1 :: baseState.queue.erase (vidx 1) ∧
    (bump_variable baseState 1).queue.head? = some (vidx 1) ∧
    (bump_variable baseState 1).queue.Perm baseState.queue ∧
    (bump_variable baseState 1).queue.Nodup ∧
    (bump_variable baseState 1).btab (vidx 1) = baseState.statsBumped + 1 ∧
    (bump_variable baseState 1).statsBumped = baseState.statsBumped + 1 ∧
    (bump_variable baseState 1).statsBumplast = baseState.statsBumplast +
      (if (baseState.vtab (vidx 1)).level = baseState.level then 1 else 0) ∧
    (bump_variable baseState 1).queueUnassigned =
      (if baseState.valtab (vidx 1) = 0 then some (vidx 1)
       else baseState.queueUnassigned)) :=
  ⟨⟨by decide, by decide, by decide⟩,
    bump_variable_spec baseState 1 (by decide) (by decide) (by decide)⟩

/-! ### Frame of the resolution walk -/

theorem analyze_literal_frame (s : State) (l : Int) (opn : Int) :
    WalkFrame s (analyze_literal s l opn).1 := by
  unfold analyze_literal
  by_cases h1 : seenF s (vidx l) = true
  · rw [if_pos h1]
    exact WalkFrame.refl s
  · rw [if_neg h1]
    by_cases h2 : (s.vtab (vidx l)).level = 0
    · rw [if_pos h2]
      exact WalkFrame.refl s
    · rw [if_neg h2]
      dsimp only
      split_ifs with h3 h4 h4 <;>
        exact walkFrame_update s _ _ _ _ _ _ _
          (fun idx => by
            by_cases h : idx = vidx l
            · subst h
              simp [Function.update_same]
            · simp [Function.update_noteq h])
          (fun c => ⟨rfl, rfl, rfl, rfl, rfl, rfl⟩)

theorem save_as_resolved_clause_frame (s : State) (cid : Nat) :
    WalkFrame s (save_as_resolved_clause s cid) := by
  unfold save_as_resolved_clause
  dsimp only
  split_ifs <;>
    first
      | exact WalkFrame.refl s
      | exact walkFrame_update s _ _ _ _ _ _ _
          (fun idx => ⟨rfl, rfl, rfl, rfl⟩)
          (fun c => by
            by_cases h : c = cid
            · subst h
              simp [Function.update_same]
            · simp [Function.update_noteq h])

theorem analyzeLits_frame (u : Int) : ∀ (lits : List Int)
    (p : State × Int), WalkFrame p.1 (analyzeLits u lits p).1 := by
  intro lits
  unfold analyzeLits
  induction lits with
  | nil => intro p; exact WalkFrame.refl _
  | cons l rest ih =>
    intro p
    rw [List.foldl_cons]
    refine WalkFrame.trans ?_ (ih _)
    by_cases h : l ≠ u
    · rw [if_pos h]
      exact analyze_literal_frame _ _ _
    · rw [if_neg h]
      exact WalkFrame.refl _

theorem analyze_reason_frame (s : State) (u : Int) (cid : Nat) (opn : Int) :
    WalkFrame s (analyze_reason s u cid opn).1 := by
  unfold analyze_reason
  dsimp only
  exact WalkFrame.trans (save_as_resolved_clause_frame s cid)
    (analyzeLits_frame u ((save_as_resolved_clause s cid).cstore cid).lits
      ((save_as_resolved_clause s cid, opn)))

theorem walkAux_frame : ∀ (fuel : Nat) (s : State) (reason : Option Nat)
    (uip : Int) (opn : Int) (i : Nat),
    WalkFrame s (walkAux s reason uip opn i fuel).1 := by
  intro fuel
  induction fuel with
  | zero => intro s reason uip opn i; exact WalkFrame.refl s
  | succ fuel ih =>
    intro s reason uip opn i
    unfold walkAux
    dsimp only
    cases reason with
    | some cid =>
      have hf1 : WalkFrame s (analyze_reason s uip cid opn).1 :=
        analyze_reason_frame s uip cid opn
      cases hfind : findSeen (analyze_reason s uip cid opn).1 i with
      | none =>
        simp only [hfind]
        exact hf1
      | some ju =>
        obtain ⟨j, u⟩ := ju
        simp only [hfind]
        by_cases hbreak : (analyze_reason s uip cid opn).2 - 1 = 0
        · rw [if_pos hbreak]
          exact hf1
        · rw [if_neg hbreak]
          exact WalkFrame.trans hf1 (ih _ _ _ _ _)
    | none =>
      have hf1 : WalkFrame s (analyze_literal s 0 opn).1 :=
        analyze_literal_frame s 0 opn
      cases hfind : findSeen (analyze_literal s 0 opn).1 i with
      | none =>
        simp only [hfind]
        exact hf1
      | some ju =>
        obtain ⟨j, u⟩ := ju
        simp only [hfind]
        by_cases hbreak : (analyze_literal s 0 opn).2 - 1 = 0
        · rw [if_pos hbreak]
          exact hf1
        · rw [if_neg hbreak]
          exact WalkFrame.trans hf1 (ih _ _ _ _ _)

theorem analyzeUIP_frame (s : State) (cid : Nat) :
    WalkFrame s (analyzeUIP s cid).1 := by
  unfold analyzeUIP
  dsimp only
  refine WalkFrame.trans
    (walkAux_frame (s.trail.length + 1) s (some cid) 0 0 s.trail.length)
    (walkFrame_update _ _ _ _ _ _ _ _
      (fun idx => ⟨rfl, rfl, rfl, rfl⟩)
      (fun c => ⟨rfl, rfl, rfl, rfl, rfl, rfl⟩))

/-! ### The resolved-clause commit -/

theorem foldl_bump_clause_stats (l : List Nat) :
    ∀ s : State, (l.foldl bump_clause s).statsAnalyzed =
      s.statsAnalyzed + l.length := by
  induction l with
  | nil => intro s; rfl
  | cons a rest ih =>
    intro s
    rw [List.foldl_cons, ih]
    show (bump_clause s a).statsAnalyzed + rest.length = _
    have : (bump_clause s a).statsAnalyzed = s.statsAnalyzed + 1 := rfl
    rw [this]
    simp [List.length_cons]
    omega

theorem foldl_bump_clause_notmem (l : List Nat) :
    ∀ (s : State) (c : Nat), c ∉ l →
      (l.foldl bump_clause s).cstore c = s.cstore c := by
  induction l with
  | nil => intro s c _; rfl
  | cons a rest ih =>
    intro s c hc
    rw [List.foldl_cons, ih _ _ (fun h => hc (List.mem_cons_of_mem a h))]
    have hca : ¬ c = a := fun h => hc (h ▸ List.mem_cons_self a rest)
    show Function.update s.cstore a _ c = s.cstore c
    exact Function.update_noteq hca _ _

theorem foldl_bump_clause_getD (l : List Nat) :
    ∀ s : State, l.Nodup → ∀ p, p < l.length →
      ((l.foldl bump_clause s).cstore (l.getD p 0)).analyzedTS =
        s.statsAnalyzed + p + 1 := by
  induction l with
  | nil => intro s _ p hp; exact absurd hp (Nat.not_lt_zero p)
  | cons a rest ih =>
    intro s hnd p hp
    rw [List.foldl_cons]
    cases p with
    | zero =>
      rw [List.getD_cons_zero]
      rw [foldl_bump_clause_notmem rest _ a (List.nodup_cons.mp hnd).1]
      show (Function.update s.cstore a _ a).analyzedTS = _
      rw [Function.update_same]
    | succ p =>
      rw [List.getD_cons_succ]
      have := ih (bump_clause s a) (List.nodup_cons.mp hnd).2 p
        (Nat.lt_of_succ_lt_succ hp)
      rw [this]
      show s.statsAnalyzed + 1 + p + 1 = _
      omega

/-- The commit function characterized on an arbitrary state. -/
theorem bump_resolved_clauses_run (s : State)
    (hnd : s.resolved.Nodup) :
    (resolvedOrder s).Perm s.resolved ∧
    (resolvedOrder s).Sorted (analyzedEarlier s) ∧
    (bump_resolved_clauses s).resolved = [] ∧
    (bump_resolved_clauses s).statsAnalyzed =
      s.statsAnalyzed + (resolvedOrder s).length ∧
    (∀ p, p < (resolvedOrder s).length →
      ((bump_resolved_clauses s).cstore ((resolvedOrder s).getD p 0)).analyzedTS
        = s.statsAnalyzed + p + 1) ∧
    (∀ c, c ∉ (resolvedOrder s) →
      (bump_resolved_clauses s).cstore c = s.cstore c) := by
  have hperm : (resolvedOrder s).Perm s.resolved :=
    List.perm_insertionSort _ _
  have hndo : (resolvedOrder s).Nodup := (hperm.nodup_iff).mpr hnd
  refine ⟨hperm, List.sorted_insertionSort _ _, rfl, ?_, ?_, ?_⟩
  · exact foldl_bump_clause_stats _ s
  · intro p hp
    exact foldl_bump_clause_getD _ s hndo p hp
  · intro c hc
    exact foldl_bump_clause_notmem _ s c hc

/-! ### Preservation through the post-commit phases -/

theorem bump_variables_pres {β : Type} (s : State) (F : State → β)
    (hb : ∀ t a, F (bump_variable t a) = F t)
    (hs : ∀ t : State,
      F { t with statsTrailbumped := t.statsTrailbumped + 1 } = F t) :
    F (bump_variables s) = F s := by
  unfold bump_variables
  dsimp only
  rw [foldl_preserves bump_variable F hb]
  split_ifs
  · exact hs s
  · rfl

theorem bump_variables_frame (s : State) :
    (bump_variables s).trail = s.trail ∧
    (bump_variables s).level = s.level ∧
    (bump_variables s).vtab = s.vtab ∧
    (bump_variables s).valtab = s.valtab ∧
    (bump_variables s).cstore = s.cstore ∧
    (bump_variables s).nextCid = s.nextCid ∧
    (bump_variables s).statsAnalyzed = s.statsAnalyzed ∧
    (bump_variables s).resolved = s.resolved ∧
    (bump_variables s).clause = s.clause ∧
    (bump_variables s).analyzed = s.analyzed ∧
    (bump_variables s).levels = s.levels ∧
    (bump_variables s).control = s.control ∧
    (bump_variables s).ftab = s.ftab ∧
    (bump_variables s).proofTrace = s.proofTrace ∧
    (bump_variables s).jumpAvgHist = s.jumpAvgHist ∧
    (bump_variables s).conflict = s.conflict ∧
    (bump_variables s).iterating = s.iterating ∧
    (bump_variables s).statsFixed = s.statsFixed := by
  refine ⟨?_, ?_, ?_, ?_, ?_, ?_, ?_, ?_, ?_, ?_, ?_, ?_, ?_, ?_, ?_, ?_,
    ?_, ?_⟩ <;>
    exact bump_variables_pres s _
      (fun t a => by
        unfold bump_variable
        dsimp only
        split_ifs <;> rfl)
      (fun t => rfl)

theorem analyzeBackjump_resolved (u : Int) (g : Nat) (t : State) :
    (analyzeBackjump u g t).resolved = t.resolved := by
  unfold analyzeBackjump new_learned_redundant_clause backtrack assign_driving
    assign_unit learn_unit_clause
  dsimp only
  split_ifs <;> rfl

theorem analyzeBackjump_statsAnalyzed (u : Int) (g : Nat) (t : State) :
    (analyzeBackjump u g t).statsAnalyzed = t.statsAnalyzed := by
  unfold analyzeBackjump new_learned_redundant_clause backtrack assign_driving
    assign_unit learn_unit_clause
  dsimp only
  split_ifs <;> rfl

theorem analyzeBackjump_cstore_ne (u : Int) (g : Nat) (t : State) (c : Nat)
    (hc : ¬ c = t.nextCid) :
    (analyzeBackjump u g t).cstore c = t.cstore c := by
  unfold analyzeBackjump new_learned_redundant_clause backtrack assign_driving
    assign_unit learn_unit_clause
  dsimp only
  by_cases h : 1 < t.clause.length
  · rw [if_pos h]
    exact Function.update_noteq hc _ _
  · rw [if_neg h]

/-- The flags table after the `clear_seen` fold: the `seen` flag of every
variable of the processed batch is dropped, everything else is kept. -/
theorem clear_seen_fold_ftab : ∀ (l : List Int) (st : State) (idx : Nat),
    (l.foldl clearSeenStep st).ftab idx =
      (if ∃ lit ∈ l, vidx lit = idx then { st.ftab idx with seen := false }
       else st.ftab idx) := by
  intro l
  induction l with
  | nil => intro st idx; simp
  | cons a rest ih =>
    intro st idx
    rw [List.foldl_cons, ih]
    have hstep : (clearSeenStep st a).ftab idx =
        (if idx = vidx a then { st.ftab idx with seen := false }
         else st.ftab idx) := by
      unfold clearSeenStep
      dsimp only
      by_cases h : idx = vidx a
      · subst h
        rw [Function.update_same, if_pos rfl]
      · rw [Function.update_noteq h, if_neg h]
    rw [hstep]
    by_cases h : idx = vidx a
    · have hcons : ∃ lit ∈ a :: rest, vidx lit = idx :=
        ⟨a, List.mem_cons_self a rest, h.symm⟩
      by_cases hm : ∃ lit ∈ rest, vidx lit = idx
      · rw [if_pos hm, if_pos h, if_pos hcons]
      · rw [if_neg hm, if_pos h, if_pos hcons]
    · by_cases hm : ∃ lit ∈ rest, vidx lit = idx
      · have hcons : ∃ lit ∈ a :: rest, vidx lit = idx :=
          ⟨hm.choose, List.mem_cons_of_mem a hm.choose_spec.1,
            hm.choose_spec.2⟩
        rw [if_pos hm, if_neg h, if_pos hcons]
      · have hcons : ¬ ∃ lit ∈ a :: rest, vidx lit = idx := by
          rintro ⟨lit, hmem, hv⟩
          rcases List.mem_cons.mp hmem with h1 | h1
          · exact h (hv ▸ h1 ▸ rfl)
          · exact hm ⟨lit, h1, hv⟩
        rw [if_neg hm, if_neg h, if_neg hcons]

/-- The control table after the `clear_levels` fold: every processed
level record is reset, everything else is kept. -/
theorem clear_levels_fold_control : ∀ (l : List Nat) (st : State)
    (lvl : Nat),
    (l.foldl clearLevelsStep st).control lvl =
      (if lvl ∈ l then emptyLevel else st.control lvl) := by
  intro l
  induction l with
  | nil => intro st lvl; simp
  | cons a rest ih =>
    intro st lvl
    rw [List.foldl_cons, ih]
    by_cases hm : lvl ∈ rest
    · rw [if_pos hm, if_pos (List.mem_cons_of_mem a hm)]
    · rw [if_neg hm]
      unfold clearLevelsStep
      by_cases h : lvl = a
      · subst h
        rw [if_pos (List.mem_cons_self lvl rest)]
        exact Function.update_same _ _ _
      · rw [if_neg (by
          intro hc
          rcases List.mem_cons.mp hc with h1 | h1
          · exact h h1
          · exact hm h1)]
        exact Function.update_noteq h _ _

theorem clear_seen_pres {β : Type} (t : State) (F : State → β)
    (hstep : ∀ (st : State) (ft : Nat → FlagsRec),
      F { st with ftab := ft } = F st)
    (hlast : ∀ (st : State) (an : List Int),
      F { st with analyzed := an } = F st) :
    F (clear_seen t) = F t := by
  unfold clear_seen
  have h1 : ∀ (l : List Int) (st : State),
      F (l.foldl clearSeenStep st) = F st :=
    foldl_preserves _ F (fun st lit => hstep st _)
  calc F _ = F (t.analyzed.foldl clearSeenStep t) := hlast _ _
    _ = F t := h1 _ _

theorem clear_levels_pres {β : Type} (t : State) (F : State → β)
    (hstep : ∀ (st : State) (ct : Nat → LevelRec),
      F { st with control := ct } = F st)
    (hlast : ∀ (st : State) (lv : List Nat),
      F { st with levels := lv } = F st) :
    F (clear_levels t) = F t := by
  unfold clear_levels
  have h1 : ∀ (l : List Nat) (st : State),
      F (l.foldl clearLevelsStep st) = F st :=
    foldl_preserves _ F (fun st lvl => hstep st _)
  calc F _ = F (t.levels.foldl clearLevelsStep t) := hlast _ _
    _ = F t := h1 _ _

/-- The flags table after the whole cleanup section. -/
theorem analyzeCleanup_ftab (t : State) (idx : Nat) :
    (analyzeCleanup t).ftab idx =
      (if ∃ lit ∈ t.analyzed, vidx lit = idx
       then { t.ftab idx with seen := false } else t.ftab idx) := by
  have h1 : (analyzeCleanup t).ftab = (clear_seen t).ftab := by
    show (clear_levels { clear_seen t with clause := [] }).ftab = _
    rw [clear_levels_pres _ (fun st => st.ftab) (fun st ct => rfl)
      (fun st lv => rfl)]
  rw [h1]
  show (t.analyzed.foldl clearSeenStep t).ftab idx = _
  exact clear_seen_fold_ftab t.analyzed t idx

/-- The control table after the whole cleanup section. -/
theorem analyzeCleanup_control (t : State) (lvl : Nat) :
    (analyzeCleanup t).control lvl =
      (if lvl ∈ t.levels then emptyLevel else t.control lvl) := by
  have h2 : ({ clear_seen t with clause := ([] : List Int) }).levels
      = t.levels := by
    show (t.analyzed.foldl clearSeenStep t).levels = t.levels
    exact foldl_preserves clearSeenStep (fun st => st.levels)
      (fun st lit => rfl) t.analyzed t
  have h3 : ({ clear_seen t with clause := ([] : List Int) }).control
      = t.control := by
    show (t.analyzed.foldl clearSeenStep t).control = t.control
    exact foldl_preserves clearSeenStep (fun st => st.control)
      (fun st lit => rfl) t.analyzed t
  show (clear_levels { clear_seen t with clause := [] }).control lvl = _
  unfold clear_levels
  show (({ clear_seen t with clause := ([] : List Int) }).levels.foldl
    clearLevelsStep ({ clear_seen t with clause := ([] : List Int) })).control
      lvl = _
  rw [h2, clear_levels_fold_control, h3]

theorem analyzeCleanup_frame (t : State) :
    (analyzeCleanup t).trail = t.trail ∧
    (analyzeCleanup t).level = t.level ∧
    (analyzeCleanup t).vtab = t.vtab ∧
    (analyzeCleanup t).valtab = t.valtab ∧
    (analyzeCleanup t).cstore = t.cstore ∧
    (analyzeCleanup t).nextCid = t.nextCid ∧
    (analyzeCleanup t).statsAnalyzed = t.statsAnalyzed ∧
    (analyzeCleanup t).resolved = t.resolved ∧
    (analyzeCleanup t).trail = t.trail ∧
    (analyzeCleanup t).proofTrace = t.proofTrace ∧
    (analyzeCleanup t).jumpAvgHist = t.jumpAvgHist ∧
    (analyzeCleanup t).iterating = t.iterating ∧
    (analyzeCleanup t).statsFixed = t.statsFixed ∧
    (analyzeCleanup t).queue = t.queue ∧
    (analyzeCleanup t).btab = t.btab ∧
    (∀ idx, ((analyzeCleanup t).ftab idx).status = ((t.ftab idx).status)) ∧
    (∀ idx, ((analyzeCleanup t).ftab idx).poison = ((t.ftab idx).poison)) ∧
    (∀ idx, ((analyzeCleanup t).ftab idx).removable =
      ((t.ftab idx).removable)) ∧
    (∀ idx, ((analyzeCleanup t).ftab idx).keep = ((t.ftab idx).keep)) := by
  have gen : ∀ {β : Type} (F : State → β),
      (∀ (st : State) (ft : Nat → FlagsRec), F { st with ftab := ft } = F st) →
      (∀ (st : State) (an : List Int), F { st with analyzed := an } = F st) →
      (∀ (st : State) (ct : Nat → LevelRec),
        F { st with control := ct } = F st) →
      (∀ (st : State) (lv : List Nat), F { st with levels := lv } = F st) →
      (∀ (st : State) (cl : List Int), F { st with clause := cl } = F st) →
      (∀ (st : State) (cf : Option Nat), F { st with conflict := cf } = F st) →
      F (analyzeCleanup t) = F t := by
    intro β F hft han hct hlv hcl hcf
    unfold analyzeCleanup
    calc F _ = F (clear_levels { clear_seen t with clause := [] }) := hcf _ _
      _ = F { clear_seen t with clause := [] } :=
          clear_levels_pres _ F hct hlv
      _ = F (clear_seen t) := hcl _ _
      _ = F t := clear_seen_pres _ F hft han
  refine ⟨gen _ (fun st ft => rfl) (fun st an => rfl) (fun st ct => rfl)
      (fun st lv => rfl) (fun st cl => rfl) (fun st cf => rfl),
    ?_, ?_, ?_, ?_, ?_, ?_, ?_, ?_, ?_, ?_, ?_, ?_, ?_, ?_, ?_, ?_, ?_, ?_⟩
  all_goals
    first
      | exact gen _ (fun st ft => rfl) (fun st an => rfl) (fun st ct => rfl)
          (fun st lv => rfl) (fun st cl => rfl) (fun st cf => rfl)
      | skip
  all_goals
    intro idx
    rw [analyzeCleanup_ftab]
    split_ifs <;> rfl

theorem bump_variables_cstore (s : State) :
    (bump_variables s).cstore = s.cstore := (bump_variables_frame s).2.2.2.2.1

theorem bump_variables_nextCid (s : State) :
    (bump_variables s).nextCid = s.nextCid :=
  (bump_variables_frame s).2.2.2.2.2.1

theorem bump_variables_statsAnalyzed (s : State) :
    (bump_variables s).statsAnalyzed = s.statsAnalyzed :=
  (bump_variables_frame s).2.2.2.2.2.2.1

theorem bump_variables_resolved (s : State) :
    (bump_variables s).resolved = s.resolved :=
  (bump_variables_frame s).2.2.2.2.2.2.2.1

theorem bump_variables_clause (s : State) :
    (bump_variables s).clause = s.clause :=
  (bump_variables_frame s).2.2.2.2.2.2.2.2.1

theorem analyzeCleanup_resolved (t : State) :
    (analyzeCleanup t).resolved = t.resolved :=
  (analyzeCleanup_frame t).2.2.2.2.2.2.2.1

theorem analyzeCleanup_statsAnalyzed (t : State) :
    (analyzeCleanup t).statsAnalyzed = t.statsAnalyzed :=
  (analyzeCleanup_frame t).2.2.2.2.2.2.1

theorem analyzeCleanup_cstore (t : State) :
    (analyzeCleanup t).cstore = t.cstore :=
  (analyzeCleanup_frame t).2.2.2.2.1

/-- The long-level pipeline equation of `analyze`: with a conflict at a
positive decision level, `analyze` is the cleanup of the backjump of the
variable bump of the minimization of the statistics update of the
resolved commit of the first-UIP walk. -/
theorem analyze_pipeline (mini : List Int → List Int) (s : State)
    (cid : Nat) (hconf : s.conflict = some cid) (hlvl : ¬ s.level = 0) :
    analyze mini s =
      analyzeCleanup (analyzeBackjump (analyzeUIP s cid).2
        (bump_resolved_clauses (analyzeUIP s cid).1).levels.length
        (bump_variables (analyzeMini mini
          (analyzeStats (bump_resolved_clauses (analyzeUIP s cid).1))))) := by
  simp only [analyze, hconf]
  rw [if_neg hlvl]

/-! ### C6: the resolved-clause commit -/

/-- C6: for a conflict analyzed at level > 0, the resolved batch is
committed exactly once, after the resolution walk and before variable
bumping (the pipeline equation): the candidates are sorted by ascending
previous timestamp, each is stamped with a new strictly increasing global
timestamp in that order, the batch is empty afterwards, and no later
phase restamps an existing clause. -/
theorem analyze_commit_resolved_spec (mini : List Int → List Int)
    (s : State) (cid : Nat) (hconf : s.conflict = some cid)
    (hlvl : ¬ s.level = 0)
    (hnd : (analyzeUIP s cid).1.resolved.Nodup) :
    (resolvedOrder (analyzeUIP s cid).1).Perm
      (analyzeUIP s cid).1.resolved ∧
    (resolvedOrder (analyzeUIP s cid).1).Sorted
      (analyzedEarlier (analyzeUIP s cid).1) ∧
    (bump_resolved_clauses (analyzeUIP s cid).1).resolved = [] ∧
    (bump_resolved_clauses (analyzeUIP s cid).1).statsAnalyzed =
      s.statsAnalyzed + (resolvedOrder (analyzeUIP s cid).1).length ∧
    (∀ p, p < (resolvedOrder (analyzeUIP s cid).1).length →
      ((bump_resolved_clauses (analyzeUIP s cid).1).cstore
        ((resolvedOrder (analyzeUIP s cid).1).getD p 0)).analyzedTS =
          s.statsAnalyzed + p + 1) ∧
    analyze mini s =
      analyzeCleanup (analyzeBackjump (analyzeUIP s cid).2
        (bump_resolved_clauses (analyzeUIP s cid).1).levels.length
        (bump_variables (analyzeMini mini
          (analyzeStats (bump_resolved_clauses (analyzeUIP s cid).1))))) ∧
    (analyze mini s).resolved = [] ∧
    (analyze mini s).statsAnalyzed =
      (bump_resolved_clauses (analyzeUIP s cid).1).statsAnalyzed ∧
    (∀ c, ¬ c = s.nextCid →
      (analyze mini s).cstore c =
        (bump_resolved_clauses (analyzeUIP s cid).1).cstore c) := by
  have hfr := analyzeUIP_frame s cid
  have run := bump_resolved_clauses_run (analyzeUIP s cid).1 hnd
  have hpipe := analyze_pipeline mini s cid hconf hlvl
  have hsa2 : (analyzeUIP s cid).1.statsAnalyzed = s.statsAnalyzed :=
    hfr.sanalyzed_eq
  have hnc2 : (analyzeUIP s cid).1.nextCid = s.nextCid := hfr.nextCid_eq
  refine ⟨run.1, run.2.1, run.2.2.1, ?_, ?_, hpipe, ?_, ?_, ?_⟩
  · rw [run.2.2.2.1, hsa2]
  · intro p hp
    rw [run.2.2.2.2.1 p hp, hsa2]
  · rw [hpipe, analyzeCleanup_resolved, analyzeBackjump_resolved,
      bump_variables_resolved, analyzeMini_eq]
    rfl
  · rw [hpipe, analyzeCleanup_statsAnalyzed, analyzeBackjump_statsAnalyzed,
      bump_variables_statsAnalyzed, analyzeMini_eq]
    rfl
  · intro c hc
    have hnc : ¬ c = (bump_variables (analyzeMini mini
        (analyzeStats (bump_resolved_clauses
          (analyzeUIP s cid).1)))).nextCid := by
      rw [bump_variables_nextCid, analyzeMini_eq]
      show ¬ c = (bump_resolved_clauses (analyzeUIP s cid).1).nextCid
      show ¬ c = ((resolvedOrder (analyzeUIP s cid).1).foldl bump_clause
        (analyzeUIP s cid).1).nextCid
      rw [foldl_preserves bump_clause (fun t => t.nextCid)
        (fun t a => rfl), hnc2]
      exact hc
    rw [hpipe, analyzeCleanup_cstore, analyzeBackjump_cstore_ne _ _ _ _ hnc,
      bump_variables_cstore, analyzeMini_eq]
    rfl

/-- Witness for C6 on the concrete conflict scenario. -/
theorem analyze_commit_resolved_spec_witness :
    (scenarioState.conflict = some 0 ∧ ¬ scenarioState.level = 0 ∧
      (analyzeUIP scenarioState 0).1.resolved.Nodup) ∧
    ((resolvedOrder (analyzeUIP scenarioState 0).1).Perm
      (analyzeUIP scenarioState 0).1.resolved ∧
    (resolvedOrder (analyzeUIP scenarioState 0).1).Sorted
      (analyzedEarlier (analyzeUIP scenarioState 0).1) ∧
    (bump_resolved_clauses (analyzeUIP scenarioState 0).1).resolved = [] ∧
    (bump_resolved_clauses (analyzeUIP scenarioState 0).1).statsAnalyzed =
      scenarioState.statsAnalyzed +
        (resolvedOrder (analyzeUIP scenarioState 0).1).length ∧
    (∀ p, p < (resolvedOrder (analyzeUIP scenarioState 0).1).length →
      ((bump_resolved_clauses (analyzeUIP scenarioState 0).1).cstore
        ((resolvedOrder (analyzeUIP scenarioState 0).1).getD p 0)).analyzedTS
          = scenarioState.statsAnalyzed + p + 1) ∧
    analyze id scenarioState =
      analyzeCleanup (analyzeBackjump (analyzeUIP scenarioState 0).2
        (bump_resolved_clauses (analyzeUIP scenarioState 0).1).levels.length
        (bump_variables (analyzeMini id
          (analyzeStats (bump_resolved_clauses
            (analyzeUIP scenarioState 0).1))))) ∧
    (analyze id scenarioState).resolved = [] ∧
    (analyze id scenarioState).statsAnalyzed =
      (bump_resolved_clauses (analyzeUIP scenarioState 0).1).statsAnalyzed ∧
    (∀ c, ¬ c = scenarioState.nextCid →
      (analyze id scenarioState).cstore c =
        (bump_resolved_clauses (analyzeUIP scenarioState 0).1).cstore c)) :=
  ⟨⟨rfl, by decide, by decide⟩,
    analyze_commit_resolved_spec id scenarioState 0 rfl (by decide)
      (by decide)⟩

/-! ### The backjump section, characterized per branch -/

theorem vidx_neg (l : Int) : vidx (-l) = vidx l := Int.natAbs_neg l

theorem bump_resolved_pres {β : Type} (s : State) (F : State → β)
    (h1 : ∀ t a, F (bump_clause t a) = F t)
    (h2 : ∀ t : State, F { t with resolved := [] } = F t) :
    F (bump_resolved_clauses s) = F s := by
  unfold bump_resolved_clauses
  calc F _ = F ((resolvedOrder s).foldl bump_clause s) := h2 _
    _ = F s := foldl_preserves bump_clause F h1 _ _

/-- Every field that no post-walk phase before the backjump writes is
carried unchanged from the walk output (and, when the walk does not write
it either, from the conflict entry state) to the state handed to the
backjump section. -/
theorem s8_frame (mini : List Int → List Int) (s : State) (cid : Nat) :
    (bump_variables (analyzeMini mini (analyzeStats
      (bump_resolved_clauses (analyzeUIP s cid).1)))).trail = s.trail ∧
    (bump_variables (analyzeMini mini (analyzeStats
      (bump_resolved_clauses (analyzeUIP s cid).1)))).level = s.level ∧
    (bump_variables (analyzeMini mini (analyzeStats
      (bump_resolved_clauses (analyzeUIP s cid).1)))).vtab = s.vtab ∧
    (bump_variables (analyzeMini mini (analyzeStats
      (bump_resolved_clauses (analyzeUIP s cid).1)))).valtab = s.valtab ∧
    (bump_variables (analyzeMini mini (analyzeStats
      (bump_resolved_clauses (analyzeUIP s cid).1)))).nextCid = s.nextCid ∧
    (bump_variables (analyzeMini mini (analyzeStats
      (bump_resolved_clauses (analyzeUIP s cid).1)))).jumpAvgHist =
        s.jumpAvgHist ∧
    (bump_variables (analyzeMini mini (analyzeStats
      (bump_resolved_clauses (analyzeUIP s cid).1)))).proofTrace =
        s.proofTrace ∧
    (bump_variables (analyzeMini mini (analyzeStats
      (bump_resolved_clauses (analyzeUIP s cid).1)))).iterating =
        s.iterating ∧
    (bump_variables (analyzeMini mini (analyzeStats
      (bump_resolved_clauses (analyzeUIP s cid).1)))).statsFixed =
        s.statsFixed ∧
    (bump_variables (analyzeMini mini (analyzeStats
      (bump_resolved_clauses (analyzeUIP s cid).1)))).levels =
        (analyzeUIP s cid).1.levels ∧
    (bump_variables (analyzeMini mini (analyzeStats
      (bump_resolved_clauses (analyzeUIP s cid).1)))).analyzed =
        (analyzeUIP s cid).1.analyzed ∧
    (bump_variables (analyzeMini mini (analyzeStats
      (bump_resolved_clauses (analyzeUIP s cid).1)))).ftab =
        (analyzeUIP s cid).1.ftab ∧
    (bump_variables (analyzeMini mini (analyzeStats
      (bump_resolved_clauses (analyzeUIP s cid).1)))).control =
        (analyzeUIP s cid).1.control ∧
    (bump_variables (analyzeMini mini (analyzeStats
      (bump_resolved_clauses (analyzeUIP s cid).1)))).clause =
        miniClause mini (analyzeStats
          (bump_resolved_clauses (analyzeUIP s cid).1)) ∧
    (bump_variables (analyzeMini mini (analyzeStats
      (bump_resolved_clauses (analyzeUIP s cid).1)))).opts = s.opts := by
  have hfr := analyzeUIP_frame s cid
  have gen : ∀ {β : Type} (F : State → β),
      (∀ t a, F (bump_variable t a) = F t) →
      (∀ t : State,
        F { t with statsTrailbumped := t.statsTrailbumped + 1 } = F t) →
      (∀ t a, F (bump_clause t a) = F t) →
      (∀ t : State, F { t with resolved := [] } = F t) →
      (∀ (t : State) (cl : List Int) (su sb : Nat) (sh : List Nat),
        F { t with clause := cl, statsUnits := su, statsBinaries := sb,
                   sizeAvgHist := sh } = F t) →
      (∀ (t : State) (fg sg : List Nat) (sl : Nat),
        F { t with fastGlueHist := fg, slowGlueHist := sg,
                   statsLearned := sl } = F t) →
      F (bump_variables (analyzeMini mini (analyzeStats
        (bump_resolved_clauses (analyzeUIP s cid).1)))) =
        F (analyzeUIP s cid).1 := by
    intro β F h1 h2 h3 h4 h5 h6
    calc F _ = F (analyzeMini mini (analyzeStats
          (bump_resolved_clauses (analyzeUIP s cid).1))) :=
        bump_variables_pres _ F h1 h2
      _ = F (analyzeStats (bump_resolved_clauses (analyzeUIP s cid).1)) := by
        rw [analyzeMini_eq]
        exact h5 _ _ _ _ _
      _ = F (bump_resolved_clauses (analyzeUIP s cid).1) := h6 _ _ _ _
      _ = F (analyzeUIP s cid).1 := bump_resolved_pres _ F h3 h4
  refine ⟨?_, ?_, ?_, ?_, ?_, ?_, ?_, ?_, ?_, ?_, ?_, ?_, ?_, ?_, ?_⟩
  · exact (gen (fun t => t.trail)
      (fun t a => by unfold bump_variable; dsimp only; split_ifs <;> rfl)
      (fun t => rfl) (fun t a => rfl) (fun t => rfl)
      (fun t cl su sb sh => rfl) (fun t fg sg sl => rfl)).trans hfr.trail_eq
  · exact (gen (fun t => t.level)
      (fun t a => by unfold bump_variable; dsimp only; split_ifs <;> rfl)
      (fun t => rfl) (fun t a => rfl) (fun t => rfl)
      (fun t cl su sb sh => rfl) (fun t fg sg sl => rfl)).trans hfr.level_eq
  · exact (gen (fun t => t.vtab)
      (fun t a => by unfold bump_variable; dsimp only; split_ifs <;> rfl)
      (fun t => rfl) (fun t a => rfl) (fun t => rfl)
      (fun t cl su sb sh => rfl) (fun t fg sg sl => rfl)).trans hfr.vtab_eq
  · exact (gen (fun t => t.valtab)
      (fun t a => by unfold bump_variable; dsimp only; split_ifs <;> rfl)
      (fun t => rfl) (fun t a => rfl) (fun t => rfl)
      (fun t cl su sb sh => rfl) (fun t fg sg sl => rfl)).trans hfr.valtab_eq
  · exact (gen (fun t => t.nextCid)
      (fun t a => by unfold bump_variable; dsimp only; split_ifs <;> rfl)
      (fun t => rfl) (fun t a => rfl) (fun t => rfl)
      (fun t cl su sb sh => rfl) (fun t fg sg sl => rfl)).trans hfr.nextCid_eq
  · exact (gen (fun t => t.jumpAvgHist)
      (fun t a => by unfold bump_variable; dsimp only; split_ifs <;> rfl)
      (fun t => rfl) (fun t a => rfl) (fun t => rfl)
      (fun t cl su sb sh => rfl) (fun t fg sg sl => rfl)).trans hfr.jump_eq
  · exact (gen (fun t => t.proofTrace)
      (fun t a => by unfold bump_variable; dsimp only; split_ifs <;> rfl)
      (fun t => rfl) (fun t a => rfl) (fun t => rfl)
      (fun t cl su sb sh => rfl) (fun t fg sg sl => rfl)).trans hfr.proof_eq
  · exact (gen (fun t => t.iterating)
      (fun t a => by unfold bump_variable; dsimp only; split_ifs <;> rfl)
      (fun t => rfl) (fun t a => rfl) (fun t => rfl)
      (fun t cl su sb sh => rfl) (fun t fg sg sl => rfl)).trans
        hfr.iterating_eq
  · exact (gen (fun t => t.statsFixed)
      (fun t a => by unfold bump_variable; dsimp only; split_ifs <;> rfl)
      (fun t => rfl) (fun t a => rfl) (fun t => rfl)
      (fun t cl su sb sh => rfl) (fun t fg sg sl => rfl)).trans hfr.sfixed_eq
  · exact gen (fun t => t.levels)
      (fun t a => by unfold bump_variable; dsimp only; split_ifs <;> rfl)
      (fun t => rfl) (fun t a => rfl) (fun t => rfl)
      (fun t cl su sb sh => rfl) (fun t fg sg sl => rfl)
  · exact gen (fun t => t.analyzed)
      (fun t a => by unfold bump_variable; dsimp only; split_ifs <;> rfl)
      (fun t => rfl) (fun t a => rfl) (fun t => rfl)
      (fun t cl su sb sh => rfl) (fun t fg sg sl => rfl)
  · exact gen (fun t => t.ftab)
      (fun t a => by unfold bump_variable; dsimp only; split_ifs <;> rfl)
      (fun t => rfl) (fun t a => rfl) (fun t => rfl)
      (fun t cl su sb sh => rfl) (fun t fg sg sl => rfl)
  · exact gen (fun t => t.control)
      (fun t a => by unfold bump_variable; dsimp only; split_ifs <;> rfl)
      (fun t => rfl) (fun t a => rfl) (fun t => rfl)
      (fun t cl su sb sh => rfl) (fun t fg sg sl => rfl)
  · rw [bump_variables_clause, analyzeMini_eq]
  · exact (gen (fun t => t.opts)
      (fun t a => by unfold bump_variable; dsimp only; split_ifs <;> rfl)
      (fun t => rfl) (fun t a => rfl) (fun t => rfl)
      (fun t cl su sb sh => rfl) (fun t fg sg sl => rfl)).trans hfr.opts_eq

theorem analyzeBackjump_long (u : Int) (g : Nat) (t : State)
    (ht : 1 < t.clause.length) :
    (analyzeBackjump u g t).nextCid = t.nextCid + 1 ∧
    (analyzeBackjump u g t).cstore t.nextCid =
      { lits := t.clause.insertionSort (trailLarger t), redundant := true,
        hbr := false, used := false,
        have_analyzed := decide (t.opts.keepsize <
          (t.clause.insertionSort (trailLarger t)).length ∧
            t.opts.keepglue < g),
        analyzedTS := 0, glue := g } ∧
    (analyzeBackjump u g t).jumpAvgHist =
      litLevel t ((t.clause.insertionSort (trailLarger t)).getD 1 0) ::
        t.jumpAvgHist ∧
    (analyzeBackjump u g t).level =
      litLevel t ((t.clause.insertionSort (trailLarger t)).getD 1 0) ∧
    (analyzeBackjump u g t).trail =
      t.trail.filter (fun l => decide (litLevel t l ≤
        litLevel t ((t.clause.insertionSort (trailLarger t)).getD 1 0)))
        ++ [-u] ∧
    ((analyzeBackjump u g t).vtab (vidx u)).reason = some t.nextCid ∧
    ((analyzeBackjump u g t).vtab (vidx u)).level =
      litLevel t ((t.clause.insertionSort (trailLarger t)).getD 1 0) ∧
    val (analyzeBackjump u g t) (-u) = 1 := by
  unfold analyzeBackjump new_learned_redundant_clause backtrack
    assign_driving
  dsimp only
  rw [if_pos ht]
  refine ⟨rfl, ?_, rfl, rfl, rfl, ?_, ?_, ?_⟩
  · dsimp only
    rw [Function.update_same]
  · dsimp only
    rw [vidx_neg, Function.update_same]
  · dsimp only
    rw [vidx_neg, Function.update_same]
    rfl
  · unfold val
    dsimp only
    rw [Function.update_same]
    by_cases h : (-u) < 0
    · rw [if_pos h, if_pos h]
      rfl
    · rw [if_neg h, if_neg h]

theorem analyzeBackjump_unit (u : Int) (g : Nat) (t : State)
    (ht : ¬ 1 < t.clause.length) :
    (analyzeBackjump u g t).nextCid = t.nextCid ∧
    (analyzeBackjump u g t).cstore = t.cstore ∧
    (analyzeBackjump u g t).iterating = true ∧
    (analyzeBackjump u g t).jumpAvgHist = 0 :: t.jumpAvgHist ∧
    (analyzeBackjump u g t).level = 0 ∧
    (analyzeBackjump u g t).trail =
      t.trail.filter (fun l => decide (litLevel t l ≤ 0)) ++ [-u] ∧
    ((analyzeBackjump u g t).ftab (vidx u)).status = VStatus.fixed ∧
    ((analyzeBackjump u g t).vtab (vidx u)).level = 0 ∧
    ((analyzeBackjump u g t).vtab (vidx u)).reason = none ∧
    val (analyzeBackjump u g t) (-u) = 1 ∧
    (analyzeBackjump u g t).proofTrace =
      t.proofTrace.map (· ++ [PEvent.unitCl (-u)]) ∧
    (analyzeBackjump u g t).statsFixed = t.statsFixed + 1 := by
  unfold analyzeBackjump backtrack assign_unit learn_unit_clause
  dsimp only
  rw [if_neg ht]
  refine ⟨rfl, rfl, rfl, rfl, rfl, rfl, ?_, ?_, ?_, ?_, rfl, rfl⟩
  · dsimp only
    rw [vidx_neg, Function.update_same]
  · dsimp only
    rw [vidx_neg, Function.update_same]
  · dsimp only
    rw [vidx_neg, Function.update_same]
  · unfold val
    dsimp only
    rw [Function.update_same]
    by_cases h : (-u) < 0
    · rw [if_pos h, if_pos h]
      rfl
    · rw [if_neg h, if_neg h]

theorem analyzeCleanup_trail (t : State) :
    (analyzeCleanup t).trail = t.trail := (analyzeCleanup_frame t).1

theorem analyzeCleanup_level (t : State) :
    (analyzeCleanup t).level = t.level := (analyzeCleanup_frame t).2.1

theorem analyzeCleanup_vtab (t : State) :
    (analyzeCleanup t).vtab = t.vtab := (analyzeCleanup_frame t).2.2.1

theorem analyzeCleanup_valtab (t : State) :
    (analyzeCleanup t).valtab = t.valtab := (analyzeCleanup_frame t).2.2.2.1

theorem analyzeCleanup_nextCid (t : State) :
    (analyzeCleanup t).nextCid = t.nextCid :=
  (analyzeCleanup_frame t).2.2.2.2.2.1

theorem analyzeCleanup_proofTrace (t : State) :
    (analyzeCleanup t).proofTrace = t.proofTrace :=
  (analyzeCleanup_frame t).2.2.2.2.2.2.2.2.2.1

theorem analyzeCleanup_jumpAvgHist (t : State) :
    (analyzeCleanup t).jumpAvgHist = t.jumpAvgHist :=
  (analyzeCleanup_frame t).2.2.2.2.2.2.2.2.2.2.1

theorem analyzeCleanup_iterating (t : State) :
    (analyzeCleanup t).iterating = t.iterating :=
  (analyzeCleanup_frame t).2.2.2.2.2.2.2.2.2.2.2.1

theorem analyzeCleanup_statsFixed (t : State) :
    (analyzeCleanup t).statsFixed = t.statsFixed :=
  (analyzeCleanup_frame t).2.2.2.2.2.2.2.2.2.2.2.2.1

theorem analyzeCleanup_status (t : State) (idx : Nat) :
    ((analyzeCleanup t).ftab idx).status = (t.ftab idx).status :=
  (analyzeCleanup_frame t).2.2.2.2.2.2.2.2.2.2.2.2.2.2.2.1 idx

theorem analyzeCleanup_val (t : State) (l : Int) :
    val (analyzeCleanup t) l = val t l := by
  unfold val
  rw [analyzeCleanup_valtab]

/-! ### C3: learning a clause of size greater than one -/

/-- C3: when the post-minimization clause has more than one literal, the
analyzer sorts the clause by descending assignment level with recency as
tie break, creates a new redundant clause tagged with the computed glue,
sets the jump level to the level of the second sorted literal, pushes
that level onto the jump-level average, truncates the trail back to the
jump level, and assigns the negated first UIP with the new clause as its
reason. -/
theorem analyze_long_clause_spec (mini : List Int → List Int) (s : State)
    (cid : Nat) (hconf : s.conflict = some cid) (hlvl : ¬ s.level = 0)
    (hsize : 1 < (miniClause mini (analyzeStats
      (bump_resolved_clauses (analyzeUIP s cid).1))).length) :
    ((miniClause mini (analyzeStats
      (bump_resolved_clauses (analyzeUIP s cid).1))).insertionSort
        (trailLarger s)).Perm
      (miniClause mini (analyzeStats
        (bump_resolved_clauses (analyzeUIP s cid).1))) ∧
    ((miniClause mini (analyzeStats
      (bump_resolved_clauses (analyzeUIP s cid).1))).insertionSort
        (trailLarger s)).Sorted (trailLarger s) ∧
    (analyze mini s).nextCid = s.nextCid + 1 ∧
    (analyze mini s).cstore s.nextCid =
      { lits := (miniClause mini (analyzeStats
          (bump_resolved_clauses (analyzeUIP s cid).1))).insertionSort
            (trailLarger s),
        redundant := true, hbr := false, used := false,
        have_analyzed := decide (s.opts.keepsize <
          ((miniClause mini (analyzeStats
            (bump_resolved_clauses (analyzeUIP s cid).1))).insertionSort
              (trailLarger s)).length ∧
          s.opts.keepglue <
            (bump_resolved_clauses (analyzeUIP s cid).1).levels.length),
        analyzedTS := 0,
        glue := (bump_resolved_clauses (analyzeUIP s cid).1).levels.length } ∧
    (analyze mini s).jumpAvgHist =
      litLevel s (((miniClause mini (analyzeStats
        (bump_resolved_clauses (analyzeUIP s cid).1))).insertionSort
          (trailLarger s)).getD 1 0) :: s.jumpAvgHist ∧
    (analyze mini s).level =
      litLevel s (((miniClause mini (analyzeStats
        (bump_resolved_clauses (analyzeUIP s cid).1))).insertionSort
          (trailLarger s)).getD 1 0) ∧
    (analyze mini s).trail =
      s.trail.filter (fun l => decide (litLevel s l ≤
        litLevel s (((miniClause mini (analyzeStats
          (bump_resolved_clauses (analyzeUIP s cid).1))).insertionSort
            (trailLarger s)).getD 1 0)))
        ++ [-(analyzeUIP s cid).2] ∧
    ((analyze mini s).vtab (vidx (analyzeUIP s cid).2)).reason =
      some s.nextCid ∧
    ((analyze mini s).vtab (vidx (analyzeUIP s cid).2)).level =
      litLevel s (((miniClause mini (analyzeStats
        (bump_resolved_clauses (analyzeUIP s cid).1))).insertionSort
          (trailLarger s)).getD 1 0) ∧
    val (analyze mini s) (-(analyzeUIP s cid).2) = 1 := by
  have hpipe := analyze_pipeline mini s cid hconf hlvl
  have hs8 := s8_frame mini s cid
  set S8 := bump_variables (analyzeMini mini (analyzeStats
    (bump_resolved_clauses (analyzeUIP s cid).1))) with hS8def
  have hcl : S8.clause = miniClause mini (analyzeStats
      (bump_resolved_clauses (analyzeUIP s cid).1)) :=
    hs8.2.2.2.2.2.2.2.2.2.2.2.2.2.1
  have hopts : S8.opts = s.opts := hs8.2.2.2.2.2.2.2.2.2.2.2.2.2.2
  have hvt : S8.vtab = s.vtab := hs8.2.2.1
  have htr : S8.trail = s.trail := hs8.1
  have hnc : S8.nextCid = s.nextCid := hs8.2.2.2.2.1
  have hja : S8.jumpAvgHist = s.jumpAvgHist := hs8.2.2.2.2.2.1
  have hsize8 : 1 < S8.clause.length := by rw [hcl]; exact hsize
  have hlit : trailLarger S8 = trailLarger s := by
    funext a b
    unfold trailLarger litLevel litPos
    rw [hvt]
  have hll : litLevel S8 = litLevel s := by
    funext l
    unfold litLevel
    rw [hvt]
  have hlong := analyzeBackjump_long (analyzeUIP s cid).2
    (bump_resolved_clauses (analyzeUIP s cid).1).levels.length S8 hsize8
  simp only [hcl, hlit, hll, htr, hnc, hja, hopts] at hlong
  refine ⟨List.perm_insertionSort _ _, List.sorted_insertionSort _ _,
    ?_, ?_, ?_, ?_, ?_, ?_, ?_, ?_⟩
  · rw [hpipe, analyzeCleanup_nextCid, hlong.1]
  · rw [hpipe, analyzeCleanup_cstore, hlong.2.1]
  · rw [hpipe, analyzeCleanup_jumpAvgHist, hlong.2.2.1]
  · rw [hpipe, analyzeCleanup_level, hlong.2.2.2.1]
  · rw [hpipe, analyzeCleanup_trail, hlong.2.2.2.2.1]
  · rw [hpipe, analyzeCleanup_vtab, hlong.2.2.2.2.2.1]
  · rw [hpipe, analyzeCleanup_vtab, hlong.2.2.2.2.2.2.1]
  · rw [hpipe, analyzeCleanup_val, hlong.2.2.2.2.2.2.2]

/-! ### C4: learning a unit clause -/

/-- C4: when the post-minimization clause is a unit, the analyzer creates
no clause object (the store and the next identifier are unchanged after
the commit), sets the iterating flag, pushes 0 onto the jump-level
average, truncates the trail to level 0, and records the negated first
UIP as a top-level unit: it is assigned at level 0 without reason, traced
to the proof logger, and its variable's status becomes FIXED. -/
theorem analyze_unit_clause_spec (mini : List Int → List Int) (s : State)
    (cid : Nat) (hconf : s.conflict = some cid) (hlvl : ¬ s.level = 0)
    (hsize : ¬ 1 < (miniClause mini (analyzeStats
      (bump_resolved_clauses (analyzeUIP s cid).1))).length) :
    (analyze mini s).nextCid = s.nextCid ∧
    (analyze mini s).cstore =
      (bump_resolved_clauses (analyzeUIP s cid).1).cstore ∧
    (analyze mini s).iterating = true ∧
    (analyze mini s).jumpAvgHist = 0 :: s.jumpAvgHist ∧
    (analyze mini s).level = 0 ∧
    (analyze mini s).trail =
      s.trail.filter (fun l => decide (litLevel s l ≤ 0))
        ++ [-(analyzeUIP s cid).2] ∧
    ((analyze mini s).ftab (vidx (analyzeUIP s cid).2)).status =
      VStatus.fixed ∧
    ((analyze mini s).vtab (vidx (analyzeUIP s cid).2)).level = 0 ∧
    ((analyze mini s).vtab (vidx (analyzeUIP s cid).2)).reason = none ∧
    val (analyze mini s) (-(analyzeUIP s cid).2) = 1 ∧
    (analyze mini s).proofTrace =
      s.proofTrace.map (· ++ [PEvent.unitCl (-(analyzeUIP s cid).2)]) ∧
    (analyze mini s).statsFixed = s.statsFixed + 1 := by
  have hpipe := analyze_pipeline mini s cid hconf hlvl
  have hs8 := s8_frame mini s cid
  set S8 := bump_variables (analyzeMini mini (analyzeStats
    (bump_resolved_clauses (analyzeUIP s cid).1))) with hS8def
  have hcl : S8.clause = miniClause mini (analyzeStats
      (bump_resolved_clauses (analyzeUIP s cid).1)) :=
    hs8.2.2.2.2.2.2.2.2.2.2.2.2.2.1
  have hvt : S8.vtab = s.vtab := hs8.2.2.1
  have htr : S8.trail = s.trail := hs8.1
  have hnc : S8.nextCid = s.nextCid := hs8.2.2.2.2.1
  have hja : S8.jumpAvgHist = s.jumpAvgHist := hs8.2.2.2.2.2.1
  have hpt : S8.proofTrace = s.proofTrace := hs8.2.2.2.2.2.2.1
  have hsf : S8.statsFixed = s.statsFixed := hs8.2.2.2.2.2.2.2.2.1
  have hsize8 : ¬ 1 < S8.clause.length := by rw [hcl]; exact hsize
  have hll : litLevel S8 = litLevel s := by
    funext l
    unfold litLevel
    rw [hvt]
  have hcs : S8.cstore =
      (bump_resolved_clauses (analyzeUIP s cid).1).cstore := by
    rw [hS8def, bump_variables_cstore, analyzeMini_eq]
    rfl
  have hst8 : ∀ idx, (S8.ftab idx).status =
      ((analyzeUIP s cid).1.ftab idx).status := by
    intro idx
    rw [hs8.2.2.2.2.2.2.2.2.2.2.2.1]
  have hunit := analyzeBackjump_unit (analyzeUIP s cid).2
    (bump_resolved_clauses (analyzeUIP s cid).1).levels.length S8 hsize8
  simp only [hcl, hll, htr, hnc, hja, hpt, hsf, hcs] at hunit
  refine ⟨?_, ?_, ?_, ?_, ?_, ?_, ?_, ?_, ?_, ?_, ?_, ?_⟩
  · rw [hpipe, analyzeCleanup_nextCid, hunit.1]
  · rw [hpipe, analyzeCleanup_cstore, hunit.2.1]
  · rw [hpipe, analyzeCleanup_iterating, hunit.2.2.1]
  · rw [hpipe, analyzeCleanup_jumpAvgHist, hunit.2.2.2.1]
  · rw [hpipe, analyzeCleanup_level, hunit.2.2.2.2.1]
  · rw [hpipe, analyzeCleanup_trail, hunit.2.2.2.2.2.1]
  · rw [hpipe, analyzeCleanup_status, hunit.2.2.2.2.2.2.1]
  · rw [hpipe, analyzeCleanup_vtab, hunit.2.2.2.2.2.2.2.1]
  · rw [hpipe, analyzeCleanup_vtab, hunit.2.2.2.2.2.2.2.2.1]
  · rw [hpipe, analyzeCleanup_val, hunit.2.2.2.2.2.2.2.2.2.1]
  · rw [hpipe, analyzeCleanup_proofTrace, hunit.2.2.2.2.2.2.2.2.2.2.1]
  · rw [hpipe, analyzeCleanup_statsFixed, hunit.2.2.2.2.2.2.2.2.2.2.2]

/-- Witness for C3 on the concrete conflict scenario (learned clause of
size 2, jump level 1). -/
theorem analyze_long_clause_spec_witness :
    (scenarioState.conflict = some 0 ∧ ¬ scenarioState.level = 0 ∧
      1 < (miniClause id (analyzeStats
        (bump_resolved_clauses (analyzeUIP scenarioState 0).1))).length) ∧
    (((miniClause id (analyzeStats
      (bump_resolved_clauses (analyzeUIP scenarioState 0).1))).insertionSort
        (trailLarger scenarioState)).Perm
      (miniClause id (analyzeStats
        (bump_resolved_clauses (analyzeUIP scenarioState 0).1))) ∧
    ((miniClause id (analyzeStats
      (bump_resolved_clauses (analyzeUIP scenarioState 0).1))).insertionSort
        (trailLarger scenarioState)).Sorted (trailLarger scenarioState) ∧
    (analyze id scenarioState).nextCid = scenarioState.nextCid + 1 ∧
    (analyze id scenarioState).cstore scenarioState.nextCid =
      { lits := (miniClause id (analyzeStats
          (bump_resolved_clauses
            (analyzeUIP scenarioState 0).1))).insertionSort
            (trailLarger scenarioState),
        redundant := true, hbr := false, used := false,
        have_analyzed := decide (scenarioState.opts.keepsize <
          ((miniClause id (analyzeStats
            (bump_resolved_clauses
              (analyzeUIP scenarioState 0).1))).insertionSort
              (trailLarger scenarioState)).length ∧
          scenarioState.opts.keepglue <
            (bump_resolved_clauses
              (analyzeUIP scenarioState 0).1).levels.length),
        analyzedTS := 0,
        glue := (bump_resolved_clauses
          (analyzeUIP scenarioState 0).1).levels.length } ∧
    (analyze id scenarioState).jumpAvgHist =
      litLevel scenarioState (((miniClause id (analyzeStats
        (bump_resolved_clauses
          (analyzeUIP scenarioState 0).1))).insertionSort
          (trailLarger scenarioState)).getD 1 0) ::
        scenarioState.jumpAvgHist ∧
    (analyze id scenarioState).level =
      litLevel scenarioState (((miniClause id (analyzeStats
        (bump_resolved_clauses
          (analyzeUIP scenarioState 0).1))).insertionSort
          (trailLarger scenarioState)).getD 1 0) ∧
    (analyze id scenarioState).trail =
      scenarioState.trail.filter (fun l => decide (litLevel scenarioState l ≤
        litLevel scenarioState (((miniClause id (analyzeStats
          (bump_resolved_clauses
            (analyzeUIP scenarioState 0).1))).insertionSort
            (trailLarger scenarioState)).getD 1 0)))
        ++ [-(analyzeUIP scenarioState 0).2] ∧
    ((analyze id scenarioState).vtab
        (vidx (analyzeUIP scenarioState 0).2)).reason =
      some scenarioState.nextCid ∧
    ((analyze id scenarioState).vtab
        (vidx (analyzeUIP scenarioState 0).2)).level =
      litLevel scenarioState (((miniClause id (analyzeStats
        (bump_resolved_clauses
          (analyzeUIP scenarioState 0).1))).insertionSort
          (trailLarger scenarioState)).getD 1 0) ∧
    val (analyze id scenarioState) (-(analyzeUIP scenarioState 0).2) = 1) :=
  ⟨⟨rfl, by decide, by decide⟩,
    analyze_long_clause_spec id scenarioState 0 rfl (by decide) (by decide)⟩

/-- Witness for C4 on the concrete unit scenario (learned clause of
size 1). -/
theorem analyze_unit_clause_spec_witness :
    (unitState.conflict = some 0 ∧ ¬ unitState.level = 0 ∧
      ¬ 1 < (miniClause id (analyzeStats
        (bump_resolved_clauses (analyzeUIP unitState 0).1))).length) ∧
    ((analyze id unitState).nextCid = unitState.nextCid ∧
    (analyze id unitState).cstore =
      (bump_resolved_clauses (analyzeUIP unitState 0).1).cstore ∧
    (analyze id unitState).iterating = true ∧
    (analyze id unitState).jumpAvgHist = 0 :: unitState.jumpAvgHist ∧
    (analyze id unitState).level = 0 ∧
    (analyze id unitState).trail =
      unitState.trail.filter (fun l => decide (litLevel unitState l ≤ 0))
        ++ [-(analyzeUIP unitState 0).2] ∧
    ((analyze id unitState).ftab (vidx (analyzeUIP unitState 0).2)).status =
      VStatus.fixed ∧
    ((analyze id unitState).vtab (vidx (analyzeUIP unitState 0).2)).level
      = 0 ∧
    ((analyze id unitState).vtab (vidx (analyzeUIP unitState 0).2)).reason
      = none ∧
    val (analyze id unitState) (-(analyzeUIP unitState 0).2) = 1 ∧
    (analyze id unitState).proofTrace =
      unitState.proofTrace.map
        (· ++ [PEvent.unitCl (-(analyzeUIP unitState 0).2)]) ∧
    (analyze id unitState).statsFixed = unitState.statsFixed + 1) :=
  ⟨⟨rfl, by decide, by decide⟩,
    analyze_unit_clause_spec id unitState 0 rfl (by decide) (by decide)⟩

/-! ### Counting seen current-level trail positions -/

theorem countP_congr_eq {P Q : Nat → Bool} :
    ∀ {l : List Nat}, (∀ a ∈ l, P a = Q a) → l.countP P = l.countP Q := by
  intro l
  induction l with
  | nil => intro _; rfl
  | cons a t ih =>
    intro h
    rw [List.countP_cons, List.countP_cons, h a (List.mem_cons_self a t),
      ih (fun b hb => h b (List.mem_cons_of_mem a hb))]

theorem countP_singleton_eq (R : Nat → Bool) (i : Nat) :
    ([i] : List Nat).countP R = if R i then 1 else 0 := by
  rw [List.countP_cons, List.countP_nil]
  cases h : R i <;> simp [h]

/-- Flipping the predicate at a single position `p` (from `false`) adds
at most one to the count over `range i`. -/
theorem countP_range_flip (P Q : Nat → Bool) (p : Nat) :
    ∀ i, (∀ k, k < i → ¬ k = p → Q k = P k) → p < i → P p = false →
    (List.range i).countP Q =
      (List.range i).countP P + (if Q p then 1 else 0) := by
  intro i
  induction i with
  | zero => intro _ hp _; exact absurd hp (Nat.not_lt_zero p)
  | succ i ih =>
    intro hag hp hP
    rw [List.range_succ, List.countP_append, List.countP_append,
      countP_singleton_eq, countP_singleton_eq]
    by_cases hpi : p = i
    · subst hpi
      have hc : (List.range p).countP Q = (List.range p).countP P :=
        countP_congr_eq (fun k hk => hag k
          (Nat.lt_succ_of_lt (List.mem_range.mp hk))
          (Nat.ne_of_lt (List.mem_range.mp hk)))
      rw [hc, hP]
      simp
    · have hpi' : p < i := by omega
      have hQi : Q i = P i := hag i (Nat.lt_succ_self i) (fun h => hpi h.symm)
      rw [hQi, ih (fun k hk hkp => hag k (Nat.lt_succ_of_lt hk) hkp) hpi' hP]
      omega

/-- Splitting the count at the greatest satisfied position below `i`. -/
theorem countP_range_split (P : Nat → Bool) (j : Nat) :
    ∀ i, j < i → P j = true → (∀ k, j < k → k < i → P k = false) →
    (List.range i).countP P = (List.range j).countP P + 1 := by
  intro i
  induction i with
  | zero => intro hj _ _; exact absurd hj (Nat.not_lt_zero j)
  | succ i ih =>
    intro hj hPj hmax
    by_cases hji : j = i
    · subst hji
      rw [List.range_succ, List.countP_append, countP_singleton_eq, hPj]
      simp
    · have hji' : j < i := by omega
      rw [List.range_succ, List.countP_append, countP_singleton_eq,
        hmax i hji' (Nat.lt_succ_self i),
        ih hji' hPj (fun k hk1 hk2 => hmax k hk1 (Nat.lt_succ_of_lt hk2))]
      simp

theorem openCount_pos (s : State) (i : Nat) :
    0 < openCount s i ↔ ∃ k, k < i ∧ openPred s k = true := by
  unfold openCount
  rw [List.countP_pos_iff]
  constructor
  · rintro ⟨a, ha, hp⟩
    exact ⟨a, List.mem_range.mp ha, hp⟩
  · rintro ⟨k, hk, hp⟩
    exact ⟨k, List.mem_range.mpr hk, hp⟩

theorem openPred_congr {s t : State} (hf : t.ftab = s.ftab)
    (ht : t.trail = s.trail) (hv : t.vtab = s.vtab)
    (hl : t.level = s.level) : openPred t = openPred s := by
  funext k
  unfold openPred seenF litLevel
  rw [hf, ht, hv, hl]

theorem openCount_congr {s t : State} (hf : t.ftab = s.ftab)
    (ht : t.trail = s.trail) (hv : t.vtab = s.vtab)
    (hl : t.level = s.level) : openCount t = openCount s := by
  funext i
  unfold openCount
  rw [openPred_congr hf ht hv hl]

/-! ### The backward scan for a seen literal -/

theorem findSeen_some (s : State) : ∀ i j u, findSeen s i = some (j, u) →
    j < i ∧ u = s.trail.getD j 0 ∧ seenF s (vidx u) = true ∧
    ∀ k, j < k → k < i → seenF s (vidx (s.trail.getD k 0)) = false := by
  intro i
  induction i with
  | zero =>
    intro j u h
    exact absurd h (by unfold findSeen; exact Option.noConfusion)
  | succ i ih =>
    intro j u h
    unfold findSeen at h
    dsimp only at h
    by_cases hs : seenF s (vidx (s.trail.getD i 0)) = true
    · rw [if_pos hs] at h
      injection h with h1
      injection h1 with hj hu
      subst hj
      subst hu
      exact ⟨Nat.lt_succ_self i, rfl, hs, fun k hk1 hk2 => absurd hk2
        (by omega)⟩
    · rw [if_neg hs] at h
      obtain ⟨h1, h2, h3, h4⟩ := ih j u h
      refine ⟨Nat.lt_succ_of_lt h1, h2, h3, ?_⟩
      intro k hk1 hk2
      by_cases hki : k = i
      · subst hki
        exact Bool.not_eq_true _ ▸ (Bool.eq_false_iff.mpr hs)
      · exact h4 k hk1 (by omega)

theorem findSeen_none (s : State) : ∀ i, findSeen s i = none →
    ∀ k, k < i → seenF s (vidx (s.trail.getD k 0)) = false := by
  intro i
  induction i with
  | zero => intro _ k hk; exact absurd hk (Nat.not_lt_zero k)
  | succ i ih =>
    intro h k hk
    unfold findSeen at h
    dsimp only at h
    by_cases hs : seenF s (vidx (s.trail.getD i 0)) = true
    · rw [if_pos hs] at h
      exact Option.noConfusion h
    · rw [if_neg hs] at h
      by_cases hki : k = i
      · subst hki
        exact Bool.eq_false_iff.mpr hs
      · exact ih h k (by omega)

theorem findSeen_of_seen (s : State) (i : Nat)
    (h : ∃ k, k < i ∧ seenF s (vidx (s.trail.getD k 0)) = true) :
    ∃ ju, findSeen s i = some ju := by
  cases hf : findSeen s i with
  | some ju => exact ⟨ju, rfl⟩
  | none =>
    obtain ⟨k, hk, hs⟩ := h
    have := findSeen_none s i hf k hk
    rw [hs] at this
    exact Bool.noConfusion this

/-! ### Invariant preservation along the walk -/

theorem save_scratch (s : State) (cid : Nat) :
    (save_as_resolved_clause s cid).ftab = s.ftab ∧
    (save_as_resolved_clause s cid).trail = s.trail ∧
    (save_as_resolved_clause s cid).vtab = s.vtab ∧
    (save_as_resolved_clause s cid).level = s.level ∧
    (save_as_resolved_clause s cid).clause = s.clause ∧
    (save_as_resolved_clause s cid).analyzed = s.analyzed ∧
    (save_as_resolved_clause s cid).levels = s.levels ∧
    (save_as_resolved_clause s cid).control = s.control := by
  unfold save_as_resolved_clause
  dsimp only
  split_ifs <;> exact ⟨rfl, rfl, rfl, rfl, rfl, rfl, rfl, rfl⟩

theorem save_as_resolved_inv (s0 : State) {s : State} {i : Nat} {opn : Int}
    (cid : Nat) (inv : WalkInv s0 s i opn) :
    WalkInv s0 (save_as_resolved_clause s cid) i opn := by
  obtain ⟨hf, ht, hv, hl, hc, ha, hle, hco⟩ := save_scratch s cid
  refine ⟨inv.frame.trans (save_as_resolved_clause_frame s cid), inv.hi,
    ?_, ?_, ?_, ?_, ?_, ?_⟩
  · rw [openCount_congr hf ht hv hl]
    exact inv.hopen
  · rw [hc]
    intro l hl2
    obtain ⟨x1, x2, x3, x4⟩ := inv.hclause l hl2
    refine ⟨x1, x2, x3, ?_⟩
    unfold seenF
    rw [hf]
    exact x4
  · rw [hc]
    exact inv.hnodup
  · intro idx hidx
    unfold seenF at hidx
    rw [hf] at hidx
    rcases inv.hseen_an idx hidx with h | ⟨l, hml, hvl⟩
    · exact Or.inl h
    · exact Or.inr ⟨l, ha ▸ hml, hvl⟩
  · intro l hml
    rw [ha] at hml
    unfold seenF
    rw [hf]
    exact inv.han_seen l hml
  · intro lvl hlvl
    rw [hle] at hlvl
    rw [hco]
    exact inv.hctrl lvl hlvl

/-- `analyze_literal` in its main case (unseen literal of positive
level), written as one record update. -/
theorem analyze_literal_main (s : State) (lit : Int) (opn : Int)
    (h1 : ¬ seenF s (vidx lit) = true)
    (h2 : ¬ (s.vtab (vidx lit)).level = 0) :
    analyze_literal s lit opn =
      ({ s with
          clause := if (s.vtab (vidx lit)).level < s.level then
              s.clause ++ [lit] else s.clause,
          levels := if (s.control (s.vtab (vidx lit)).level).seenCount = 0
            then s.levels ++ [(s.vtab (vidx lit)).level] else s.levels,
          control := Function.update s.control (s.vtab (vidx lit)).level
            ({ seenCount :=
                 (s.control (s.vtab (vidx lit)).level).seenCount + 1,
               trailMin := updateTrailMin
                 (s.control (s.vtab (vidx lit)).level).trailMin
                 (s.vtab (vidx lit)).trailPos }),
          ftab := Function.update s.ftab (vidx lit)
            ({ s.ftab (vidx lit) with seen := true }),
          analyzed := s.analyzed ++ [lit] },
        if (s.vtab (vidx lit)).level = s.level then opn + 1 else opn) := by
  unfold analyze_literal
  rw [if_neg h1]
  dsimp only
  rw [if_neg h2]
  split_ifs <;> rfl

theorem analyze_literal_step (s0 : State) (cid : Nat) (W : WFState s0 cid)
    (s : State) (i : Nat) (opn : Int) (lit : Int)
    (inv : WalkInv s0 s i opn)
    (hl : seenF s (vidx lit) = true ∨
      (¬ lit = 0 ∧ val s0 lit < 0 ∧ litPos s0 lit < i ∧
        s0.trail.getD (litPos s0 lit) 0 = -lit)) :
    WalkInv s0 (analyze_literal s lit opn).1
      i (analyze_literal s lit opn).2 ∧
    opn ≤ (analyze_literal s lit opn).2 ∧
    (∀ idx, seenF s idx = true →
      seenF (analyze_literal s lit opn).1 idx = true) ∧
    (0 < litLevel s0 lit →
      seenF (analyze_literal s lit opn).1 (vidx lit) = true) := by
  by_cases h1 : seenF s (vidx lit) = true
  · have heq : analyze_literal s lit opn = (s, opn) := by
      unfold analyze_literal
      rw [if_pos h1]
    rw [heq]
    exact ⟨inv, le_refl _, fun idx h => h, fun _ => h1⟩
  by_cases h2 : (s.vtab (vidx lit)).level = 0
  · have heq : analyze_literal s lit opn = (s, opn) := by
      unfold analyze_literal
      rw [if_neg h1]
      dsimp only
      rw [if_pos h2]
    rw [heq]
    refine ⟨inv, le_refl _, fun idx h => h, fun hpos => ?_⟩
    exfalso
    unfold litLevel at hpos
    rw [← inv.frame.vtab_eq] at hpos
    omega
  -- main case
  have hl' := hl.resolve_left h1
  obtain ⟨hne, hval, hposlt, hentry⟩ := hl'
  rw [analyze_literal_main s lit opn h1 h2]
  have hveq : s.vtab = s0.vtab := inv.frame.vtab_eq
  have hteq : s.trail = s0.trail := inv.frame.trail_eq
  have hleq : s.level = s0.level := inv.frame.level_eq
  have hpn : litPos s0 lit < s0.trail.length := lt_of_lt_of_le hposlt inv.hi
  have hidxe : vidx (s0.trail.getD (litPos s0 lit) 0) = vidx lit := by
    rw [hentry]
    exact vidx_neg lit
  obtain ⟨hw1a, hw1b, hw1c⟩ := W.w1 (litPos s0 lit) hpn
  have hlevlit : litLevel s0 (s0.trail.getD (litPos s0 lit) 0) =
      litLevel s0 lit := by
    unfold litLevel
    rw [hidxe]
  have hposinj : ∀ k, k < s0.trail.length →
      vidx (s0.trail.getD k 0) = vidx lit → k = litPos s0 lit := by
    intro k hk hvk
    have := (W.w1 k hk).2.2
    unfold litPos at this ⊢
    rw [hvk] at this
    omega
  have hlev_pos : 0 < litLevel s0 lit := by
    unfold litLevel
    rw [← hveq]
    omega
  have hlev_le : litLevel s0 lit ≤ s0.level := by
    rw [← hlevlit]
    exact W.w2 _ hpn
  -- the updated state
  set s4 : State := { s with
      clause := if (s.vtab (vidx lit)).level < s.level then
          s.clause ++ [lit] else s.clause,
      levels := if (s.control (s.vtab (vidx lit)).level).seenCount = 0
        then s.levels ++ [(s.vtab (vidx lit)).level] else s.levels,
      control := Function.update s.control (s.vtab (vidx lit)).level
        ({ seenCount := (s.control (s.vtab (vidx lit)).level).seenCount + 1,
           trailMin := updateTrailMin
             (s.control (s.vtab (vidx lit)).level).trailMin
             (s.vtab (vidx lit)).trailPos }),
      ftab := Function.update s.ftab (vidx lit)
        ({ s.ftab (vidx lit) with seen := true }),
      analyzed := s.analyzed ++ [lit] } with hs4
  have hseen4 : ∀ idx, seenF s4 idx =
      (if idx = vidx lit then true else seenF s idx) := by
    intro idx
    show (Function.update s.ftab (vidx lit)
      ({ s.ftab (vidx lit) with seen := true }) idx).seen = _
    by_cases h : idx = vidx lit
    · subst h
      rw [Function.update_same, if_pos rfl]
    · rw [Function.update_noteq h, if_neg h]
      rfl
  have hmono : ∀ idx, seenF s idx = true → seenF s4 idx = true := by
    intro idx h
    rw [hseen4]
    by_cases hi : idx = vidx lit
    · rw [if_pos hi]
    · rw [if_neg hi]
      exact h
  have hlitseen : seenF s4 (vidx lit) = true := by
    rw [hseen4, if_pos rfl]
  have hframe4 : WalkFrame s0 s4 :=
    inv.frame.trans (walkFrame_update s _ _ _ _ _ _ _
      (fun idx => by
        by_cases h : idx = vidx lit
        · subst h
          rw [Function.update_same]
          exact ⟨rfl, rfl, rfl, rfl⟩
        · rw [Function.update_noteq h]
          exact ⟨rfl, rfl, rfl, rfl⟩)
      (fun c => ⟨rfl, rfl, rfl, rfl, rfl, rfl⟩))
  have hocount : openCount s4 i =
      openCount s i + (if (s.vtab (vidx lit)).level = s.level
        then 1 else 0) := by
    have hag : ∀ k, k < i → ¬ k = litPos s0 lit →
        openPred s4 k = openPred s k := by
      intro k hk hkp
      have hkn : k < s0.trail.length := lt_of_lt_of_le hk inv.hi
      have hvk : ¬ vidx (s.trail.getD k 0) = vidx lit := by
        intro hvk
        rw [hteq] at hvk
        exact hkp (hposinj k hkn hvk)
      unfold openPred seenF litLevel
      have ht4 : s4.trail = s.trail := rfl
      have hv4 : s4.vtab = s.vtab := rfl
      have hl4 : s4.level = s.level := rfl
      have hf4 : s4.ftab = Function.update s.ftab (vidx lit)
        ({ s.ftab (vidx lit) with seen := true }) := rfl
      rw [ht4, hv4, hl4, hf4, Function.update_noteq hvk]
    have hPp : openPred s (litPos s0 lit) = false := by
      unfold openPred
      rw [hteq]
      rw [show vidx (s0.trail.getD (litPos s0 lit) 0) = vidx lit from hidxe]
      rw [Bool.eq_false_iff.mpr h1]
      rfl
    have := countP_range_flip (openPred s) (openPred s4)
      (litPos s0 lit) i hag hposlt hPp
    unfold openCount
    rw [this]
    have hQp : openPred s4 (litPos s0 lit) =
        decide ((s.vtab (vidx lit)).level = s.level) := by
      unfold openPred
      have ht4 : s4.trail = s.trail := rfl
      rw [ht4, hteq]
      rw [show vidx (s0.trail.getD (litPos s0 lit) 0) = vidx lit from hidxe]
      rw [hlitseen]
      have : litLevel s4 (s0.trail.getD (litPos s0 lit) 0) =
          (s.vtab (vidx lit)).level := by
        unfold litLevel
        rw [hidxe]
      rw [this]
      have : s4.level = s.level := rfl
      rw [this]
      exact Bool.true_and _
    rw [hQp]
    by_cases hc : (s.vtab (vidx lit)).level = s.level
    · rw [if_pos hc]
      simp [hc]
    · rw [if_neg hc]
      simp [hc]
  have hclause4 : ∀ l ∈ s4.clause, val s0 l < 0 ∧ 0 < litLevel s0 l ∧
      litLevel s0 l < s0.level ∧ seenF s4 (vidx l) = true := by
    intro l hml
    have hcl : s4.clause = (if (s.vtab (vidx lit)).level < s.level then
        s.clause ++ [lit] else s.clause) := rfl
    rw [hcl] at hml
    by_cases hb : (s.vtab (vidx lit)).level < s.level
    · rw [if_pos hb] at hml
      rcases List.mem_append.mp hml with hold | hnew
      · obtain ⟨x1, x2, x3, x4⟩ := inv.hclause l hold
        exact ⟨x1, x2, x3, hmono _ x4⟩
      · have : l = lit := List.mem_singleton.mp hnew
        subst this
        refine ⟨hval, hlev_pos, ?_, hlitseen⟩
        unfold litLevel
        rw [← hveq, ← hleq]
        exact hb
    · rw [if_neg hb] at hml
      obtain ⟨x1, x2, x3, x4⟩ := inv.hclause l hml
      exact ⟨x1, x2, x3, hmono _ x4⟩
  have hnodup4 : (s4.clause.map vidx).Nodup := by
    have hcl : s4.clause = (if (s.vtab (vidx lit)).level < s.level then
        s.clause ++ [lit] else s.clause) := rfl
    rw [hcl]
    by_cases hb : (s.vtab (vidx lit)).level < s.level
    · rw [if_pos hb, List.map_append]
      refine List.Nodup.append inv.hnodup (List.nodup_singleton _) ?_
      intro a ha hb2
      have : a = vidx lit := by
        have := List.mem_singleton.mp hb2
        simpa using this
      subst this
      obtain ⟨l', hl', hvl'⟩ := List.mem_map.mp ha
      have := (inv.hclause l' hl').2.2.2
      rw [hvl'] at this
      exact h1 this
    · rw [if_neg hb]
      exact inv.hnodup
  have han4 : s4.analyzed = s.analyzed ++ [lit] := rfl
  refine ⟨⟨hframe4, inv.hi, ?_, hclause4, hnodup4, ?_, ?_, ?_⟩, ?_, hmono,
    fun _ => hlitseen⟩
  · show (if (s.vtab (vidx lit)).level = s.level then opn + 1 else opn) =
      (openCount s4 i : Int)
    rw [hocount]
    by_cases hc : (s.vtab (vidx lit)).level = s.level
    · rw [if_pos hc, if_pos hc, inv.hopen]
      push_cast
      ring
    · rw [if_neg hc, if_neg hc, inv.hopen]
      push_cast
      ring
  · intro idx hidx
    rw [hseen4] at hidx
    by_cases hi2 : idx = vidx lit
    · refine Or.inr ⟨lit, ?_, hi2.symm⟩
      rw [han4]
      exact List.mem_append_right _ (List.mem_singleton_self lit)
    · rw [if_neg hi2] at hidx
      rcases inv.hseen_an idx hidx with h | ⟨l, hml, hvl⟩
      · exact Or.inl h
      · refine Or.inr ⟨l, ?_, hvl⟩
        rw [han4]
        exact List.mem_append_left _ hml
  · intro l hml
    rw [han4] at hml
    rcases List.mem_append.mp hml with hold | hnew
    · exact hmono _ (inv.han_seen l hold)
    · have : l = lit := List.mem_singleton.mp hnew
      subst this
      exact hlitseen
  · intro lvl hlvl
    have hlv4 : s4.levels = (if (s.control (s.vtab (vidx lit)).level).seenCount
        = 0 then s.levels ++ [(s.vtab (vidx lit)).level] else s.levels) := rfl
    have hco4 : s4.control = Function.update s.control
        (s.vtab (vidx lit)).level
        ({ seenCount := (s.control (s.vtab (vidx lit)).level).seenCount + 1,
           trailMin := updateTrailMin
             (s.control (s.vtab (vidx lit)).level).trailMin
             (s.vtab (vidx lit)).trailPos }) := rfl
    rw [hlv4] at hlvl
    rw [hco4]
    by_cases hb : (s.control (s.vtab (vidx lit)).level).seenCount = 0
    · rw [if_pos hb] at hlvl
      have hne2 : ¬ lvl = (s.vtab (vidx lit)).level := by
        intro h
        exact hlvl (List.mem_append_right _ (h ▸ List.mem_singleton_self _))
      have hnm : lvl ∉ s.levels := fun h =>
        hlvl (List.mem_append_left _ h)
      rw [Function.update_noteq hne2]
      exact inv.hctrl lvl hnm
    · rw [if_neg hb] at hlvl
      have hvin : (s.vtab (vidx lit)).level ∈ s.levels := by
        by_contra hvnin
        have := inv.hctrl _ hvnin
        rw [this] at hb
        have hclean := W.clean5 (litPos s0 lit) hpn
        rw [hlevlit] at hclean
        unfold litLevel at hclean
        rw [← hveq] at hclean
        exact hb hclean
      have hne2 : ¬ lvl = (s.vtab (vidx lit)).level := by
        intro h
        exact hlvl (h ▸ hvin)
      rw [Function.update_noteq hne2]
      exact inv.hctrl lvl hlvl
  · by_cases hc : (s.vtab (vidx lit)).level = s.level
    · show opn ≤ (if (s.vtab (vidx lit)).level = s.level
        then opn + 1 else opn)
      rw [if_pos hc]
      omega
    · show opn ≤ (if (s.vtab (vidx lit)).level = s.level
        then opn + 1 else opn)
      rw [if_neg hc]

theorem analyzeLits_inv (s0 : State) (cid : Nat) (W : WFState s0 cid)
    (u : Int) (i : Nat) :
    ∀ (lits : List Int) (s : State) (opn : Int),
    WalkInv s0 s i opn → PlitsOK s0 s lits u i →
    WalkInv s0 (analyzeLits u lits (s, opn)).1 i
        (analyzeLits u lits (s, opn)).2 ∧
      opn ≤ (analyzeLits u lits (s, opn)).2 ∧
      (∀ idx, seenF s idx = true →
        seenF (analyzeLits u lits (s, opn)).1 idx = true) ∧
      (∀ l ∈ lits, ¬ l = u → 0 < litLevel s0 l →
        seenF (analyzeLits u lits (s, opn)).1 (vidx l) = true) := by
  intro lits
  induction lits with
  | nil =>
    intro s opn inv _
    exact ⟨inv, le_refl _, fun idx h => h, fun l hl => absurd hl
      (List.not_mem_nil l)⟩
  | cons l ls ih =>
    intro s opn inv hP
    have hunf : analyzeLits u (l :: ls) (s, opn) =
        analyzeLits u ls (if l ≠ u then analyze_literal s l opn
          else (s, opn)) := rfl
    by_cases hlu : l = u
    · rw [hunf, if_neg (fun h => h hlu)]
      have hPtail : PlitsOK s0 s ls u i := fun x hx hxu =>
        hP x (List.mem_cons_of_mem l hx) hxu
      obtain ⟨inv', hle, hmono, hseen⟩ := ih s opn inv hPtail
      refine ⟨inv', hle, hmono, ?_⟩
      intro x hx hxu hxl
      rcases List.mem_cons.mp hx with h | h
      · exact absurd (h.trans hlu) hxu
      · exact hseen x h hxu hxl
    · rw [hunf, if_pos hlu]
      have hstep := analyze_literal_step s0 cid W s i opn l inv
        (hP l (List.mem_cons_self l ls) hlu)
      obtain ⟨inv1, hle1, hmono1, hseen1⟩ := hstep
      have hPtail : PlitsOK s0 (analyze_literal s l opn).1 ls u i := by
        intro x hx hxu
        rcases hP x (List.mem_cons_of_mem l hx) hxu with h | h
        · exact Or.inl (hmono1 _ h)
        · exact Or.inr h
      obtain ⟨inv', hle, hmono, hseen⟩ := ih (analyze_literal s l opn).1
        (analyze_literal s l opn).2 inv1 hPtail
      refine ⟨inv', le_trans hle1 hle, fun idx h => hmono idx (hmono1 idx h),
        ?_⟩
      intro x hx hxu hxl
      rcases List.mem_cons.mp hx with h | h
      · subst h
        exact hmono _ (hseen1 hxl)
      · exact hseen x h hxu hxl

theorem analyze_reason_inv (s0 : State) (cid : Nat) (W : WFState s0 cid)
    (s : State) (u : Int) (rc : Nat) (opn : Int) (i : Nat)
    (inv : WalkInv s0 s i opn)
    (hP : PlitsOK s0 s ((s0.cstore rc).lits) u i) :
    WalkInv s0 (analyze_reason s u rc opn).1 i
        (analyze_reason s u rc opn).2 ∧
      opn ≤ (analyze_reason s u rc opn).2 ∧
      (∀ idx, seenF s idx = true →
        seenF (analyze_reason s u rc opn).1 idx = true) ∧
      (∀ l ∈ (s0.cstore rc).lits, ¬ l = u → 0 < litLevel s0 l →
        seenF (analyze_reason s u rc opn).1 (vidx l) = true) := by
  unfold analyze_reason
  obtain ⟨hf, ht, hv, hl, hc, ha, hle, hco⟩ := save_scratch s rc
  have hlits : ((save_as_resolved_clause s rc).cstore rc).lits =
      (s0.cstore rc).lits :=
    ((save_as_resolved_clause_frame s rc).cstore_eq rc).1.trans
      (inv.frame.cstore_eq rc).1
  have inv1 := save_as_resolved_inv s0 rc inv
  have hP1 : PlitsOK s0 (save_as_resolved_clause s rc)
      ((save_as_resolved_clause s rc).cstore rc).lits u i := by
    rw [hlits]
    intro x hx hxu
    rcases hP x hx hxu with h | h
    · refine Or.inl ?_
      unfold seenF
      rw [hf]
      exact h
    · exact Or.inr h
  obtain ⟨inv', hle2, hmono, hseen⟩ := analyzeLits_inv s0 cid W u i
    ((save_as_resolved_clause s rc).cstore rc).lits
    (save_as_resolved_clause s rc) opn inv1 hP1
  refine ⟨inv', hle2, ?_, ?_⟩
  · intro idx h
    refine hmono idx ?_
    unfold seenF
    rw [hf]
    exact h
  · intro l hml hlu hll
    exact hseen l (by rw [hlits]; exact hml) hlu hll

theorem openPred_eval (s0 s : State) (h : WalkFrame s0 s) (k : Nat) :
    openPred s k = (seenF s (vidx (s0.trail.getD k 0)) &&
      decide ((s0.vtab (vidx (s0.trail.getD k 0))).level = s0.level)) := by
  unfold openPred litLevel
  rw [h.trail_eq, h.vtab_eq, h.level_eq]

/-- The literal found by the backward scan under a positive `open` count
sits on the current decision level, and the count below it is one
less. -/
theorem pivot_level (s0 : State) (cid : Nat) (W : WFState s0 cid)
    (s : State) (i : Nat) (opn : Int) (inv : WalkInv s0 s i opn)
    (j : Nat) (hj : j < i)
    (hjseen : seenF s (vidx (s0.trail.getD j 0)) = true)
    (hmax : ∀ k, j < k → k < i → seenF s (vidx (s.trail.getD k 0)) = false)
    (hpos : 1 ≤ opn) :
    litLevel s0 (s0.trail.getD j 0) = s0.level ∧
    opn = (openCount s j : Int) + 1 := by
  have hjlen : j < s0.trail.length := lt_of_lt_of_le hj inv.hi
  have hcount : 0 < openCount s i := by
    have := inv.hopen
    omega
  obtain ⟨k, hk, hopk⟩ := (openCount_pos s i).mp hcount
  rw [openPred_eval s0 s inv.frame k] at hopk
  simp only [Bool.and_eq_true] at hopk
  obtain ⟨hkseen, hklev⟩ := hopk
  have hklev' : litLevel s0 (s0.trail.getD k 0) = s0.level :=
    of_decide_eq_true hklev
  have hklen : k < s0.trail.length := lt_of_lt_of_le hk inv.hi
  have hkj : k ≤ j := by
    by_contra hgt
    have := hmax k (by omega) hk
    rw [inv.frame.trail_eq] at this
    rw [hkseen] at this
    exact Bool.noConfusion this
  have hlevj : litLevel s0 (s0.trail.getD j 0) = s0.level := by
    have h1 := W.w3 k hklen j hjlen hkj
    have h2 := W.w2 j hjlen
    omega
  refine ⟨hlevj, ?_⟩
  have hPj : openPred s j = true := by
    rw [openPred_eval s0 s inv.frame j, hjseen]
    unfold litLevel at hlevj
    rw [hlevj]
    simp
  have hsplit := countP_range_split (openPred s) j i hj hPj
    (fun k hk1 hk2 => by
      rw [openPred_eval s0 s inv.frame k]
      have := hmax k hk1 hk2
      rw [inv.frame.trail_eq] at this
      rw [this]
      rfl)
  have : openCount s i = openCount s j + 1 := hsplit
  rw [inv.hopen, this]
  push_cast
  ring

theorem walkAux_succ_some (s : State) (rc : Nat) (uip opn : Int)
    (i fuel : Nat) :
    walkAux s (some rc) uip opn i (fuel + 1) =
      (match findSeen (analyze_reason s uip rc opn).1 i with
       | none => ((analyze_reason s uip rc opn).1, 0)
       | some (j, u) =>
         if (analyze_reason s uip rc opn).2 - 1 = 0
         then ((analyze_reason s uip rc opn).1, u)
         else walkAux (analyze_reason s uip rc opn).1
           (((analyze_reason s uip rc opn).1.vtab (vidx u)).reason) u
           ((analyze_reason s uip rc opn).2 - 1) j fuel) := rfl

/-- Main induction for the backward resolution walk: started on the
conflict with a clean counter, or continued from a seen current-level
pivot with a positive counter, it terminates at a current-level trail
literal with the counter exhausted, maintaining the walk invariant. -/
theorem walkAux_spec (s0 : State) (cid : Nat) (W : WFState s0 cid) :
    ∀ (fuel : Nat) (s : State) (reason : Option Nat) (uip : Int)
      (opn : Int) (i : Nat),
    WalkInv s0 s i opn → i < fuel →
    ((opn = 0 ∧ reason = some cid ∧ uip = 0 ∧ i = s0.trail.length) ∨
     (1 ≤ opn ∧ ∃ j, j < s0.trail.length ∧ i = j ∧
        uip = s0.trail.getD j 0 ∧ seenF s (vidx uip) = true ∧
        litLevel s0 uip = s0.level ∧
        reason = (s0.vtab (vidx uip)).reason)) →
    ∃ j, j < s0.trail.length ∧
      WalkInv s0 (walkAux s reason uip opn i fuel).1 j 0 ∧
      (walkAux s reason uip opn i fuel).2 = s0.trail.getD j 0 ∧
      litLevel s0 (walkAux s reason uip opn i fuel).2 = s0.level ∧
      seenF (walkAux s reason uip opn i fuel).1
        (vidx (walkAux s reason uip opn i fuel).2) = true := by
  intro fuel
  induction fuel with
  | zero =>
    intro s reason uip opn i _ hf _
    exact absurd hf (Nat.not_lt_zero i)
  | succ f ih =>
    intro s reason uip opn i inv hf hstart
    -- Determine the reason clause and the literal precondition.
    obtain ⟨rc, hrc, hP, hopn1⟩ :
        ∃ rc, reason = some rc ∧ PlitsOK s0 s ((s0.cstore rc).lits) uip i ∧
          (1 ≤ opn ∨ (opn = 0 ∧ rc = cid ∧ uip = 0 ∧
            i = s0.trail.length)) := by
      rcases hstart with ⟨ho, hr, hu, hi⟩ | ⟨ho, j, hjlen, hij, hu, hus,
          hulev, hr⟩
      · refine ⟨cid, hr, ?_, Or.inr ⟨ho, rfl, hu, hi⟩⟩
        intro l hml _
        obtain ⟨h1, h2, h3, h4⟩ := W.w5a l hml
        exact Or.inr ⟨h1, h2, by omega, h4⟩
      · cases hrcase : (s0.vtab (vidx uip)).reason with
        | none =>
          exfalso
          have hcount : 0 < openCount s i := by
            have := inv.hopen
            omega
          obtain ⟨k, hk, hopk⟩ := (openCount_pos s i).mp hcount
          rw [openPred_eval s0 s inv.frame k] at hopk
          simp only [Bool.and_eq_true] at hopk
          obtain ⟨_, hklev⟩ := hopk
          have hklev' : litLevel s0 (s0.trail.getD k 0) = s0.level :=
            of_decide_eq_true hklev
          have hklen : k < s0.trail.length := by omega
          have hup : 0 < litLevel s0 (s0.trail.getD j 0) := by
            rw [← hu, hulev]
            exact W.hlevel
          have hrn : (s0.vtab (vidx (s0.trail.getD j 0))).reason = none := by
            rw [← hu]
            exact hrcase
          have hkeq : litLevel s0 (s0.trail.getD k 0) =
              litLevel s0 (s0.trail.getD j 0) := by
            rw [← hu]
            omega
          have := W.w6 j hjlen hrn hup k hklen hkeq
          omega
        | some rc =>
          refine ⟨rc, by rw [hr, hrcase], ?_, Or.inl ho⟩
          intro l hml hlu
          by_cases hvl : vidx l = vidx uip
          · exact Or.inl (by rw [hvl]; exact hus)
          · have hrn : (s0.vtab (vidx (s0.trail.getD j 0))).reason =
                some rc := by
              rw [← hu]
              exact hrcase
            obtain ⟨h1, h2, h3, h4⟩ := W.w4 j hjlen rc hrn l hml
              (by rw [hu] at hvl; exact hvl)
            exact Or.inr ⟨h1, h2, by omega, h4⟩
    subst hrc
    -- Run the resolution step.
    obtain ⟨inv', hle, hmono, hseen⟩ :=
      analyze_reason_inv s0 cid W s uip rc opn i inv hP
    -- The counter is positive after the step.
    have hopn' : 1 ≤ (analyze_reason s uip rc opn).2 := by
      rcases hopn1 with h | ⟨ho, hrceq, hu, hi⟩
      · omega
      · subst hrceq
        obtain ⟨l, hml, hllev⟩ := W.w5b
        obtain ⟨hl0, hlval, hlpos, hlentry⟩ := W.w5a l hml
        have hlne : ¬ l = uip := by rw [hu]; exact hl0
        have hlpos' : 0 < litLevel s0 l := by
          rw [hllev]
          exact W.hlevel
        have hls := hseen l hml hlne hlpos'
        have hop : openPred (analyze_reason s uip rc opn).1
            (litPos s0 l) = true := by
          rw [openPred_eval s0 _ inv'.frame, hlentry]
          have hv : vidx (-l) = vidx l := vidx_neg l
          rw [hv, hls]
          unfold litLevel at hllev
          rw [hllev]
          simp
        have : 0 < openCount (analyze_reason s uip rc opn).1 i :=
          (openCount_pos _ i).mpr ⟨litPos s0 l, by omega, hop⟩
        have := inv'.hopen
        omega
    -- The scan finds a pivot.
    have hcount : 0 < openCount (analyze_reason s uip rc opn).1 i := by
      have := inv'.hopen
      omega
    obtain ⟨k0, hk0, hopk0⟩ := (openCount_pos _ i).mp hcount
    have hk0seen : seenF (analyze_reason s uip rc opn).1
        (vidx ((analyze_reason s uip rc opn).1.trail.getD k0 0)) = true := by
      unfold openPred at hopk0
      simp only [Bool.and_eq_true] at hopk0
      exact hopk0.1
    obtain ⟨⟨j2, u2⟩, hfs⟩ := findSeen_of_seen _ i ⟨k0, hk0, hk0seen⟩
    obtain ⟨hj2, hu2, hu2seen, hmax⟩ := findSeen_some _ i j2 u2 hfs
    have hu2' : u2 = s0.trail.getD j2 0 := by
      rw [hu2, inv'.frame.trail_eq]
    have hu2seen' : seenF (analyze_reason s uip rc opn).1
        (vidx (s0.trail.getD j2 0)) = true := by
      rw [← hu2']
      exact hu2seen
    obtain ⟨hlev2, hsplit⟩ := pivot_level s0 cid W _ i _ inv' j2 hj2
      hu2seen' hmax hopn'
    have hj2len : j2 < s0.trail.length := lt_of_lt_of_le hj2 inv'.hi
    rw [walkAux_succ_some, hfs]
    dsimp only
    by_cases hz : (analyze_reason s uip rc opn).2 - 1 = 0
    · rw [if_pos hz]
      refine ⟨j2, hj2len, ?_, hu2', by rw [hu2']; exact hlev2,
        by rw [hu2']; exact hu2seen'⟩
      refine ⟨inv'.frame, le_of_lt hj2len, ?_, inv'.hclause, inv'.hnodup,
        inv'.hseen_an, inv'.han_seen, inv'.hctrl⟩
      show (0 : Int) = (openCount (analyze_reason s uip rc opn).1 j2 : Int)
      omega
    · rw [if_neg hz]
      have hinv2 : WalkInv s0 (analyze_reason s uip rc opn).1 j2
          ((analyze_reason s uip rc opn).2 - 1) :=
        ⟨inv'.frame, le_of_lt hj2len, by omega, inv'.hclause, inv'.hnodup,
          inv'.hseen_an, inv'.han_seen, inv'.hctrl⟩
      have hf2 : j2 < f := by omega
      have hstart2 : ((analyze_reason s uip rc opn).2 - 1 = 0 ∧
          ((analyze_reason s uip rc opn).1.vtab (vidx u2)).reason =
            some cid ∧ u2 = 0 ∧ j2 = s0.trail.length) ∨
          (1 ≤ (analyze_reason s uip rc opn).2 - 1 ∧
            ∃ j, j < s0.trail.length ∧ j2 = j ∧
              u2 = s0.trail.getD j 0 ∧
              seenF (analyze_reason s uip rc opn).1 (vidx u2) = true ∧
              litLevel s0 u2 = s0.level ∧
              ((analyze_reason s uip rc opn).1.vtab (vidx u2)).reason =
                (s0.vtab (vidx u2)).reason) := by
        refine Or.inr ⟨by omega, j2, hj2len, rfl, hu2', hu2seen, ?_, ?_⟩
        · rw [hu2']
          exact hlev2
        · rw [inv'.frame.vtab_eq]
      exact ih (analyze_reason s uip rc opn).1
        ((analyze_reason s uip rc opn).1.vtab (vidx u2)).reason u2
        ((analyze_reason s uip rc opn).2 - 1) j2 hinv2 hf2 hstart2

theorem val_neg (s : State) (l : Int) (h : l ≠ 0) :
    val s (-l) = - val s l := by
  unfold val
  rw [vidx_neg]
  rcases lt_trichotomy l 0 with hl | hl | hl
  · rw [if_neg (by omega), if_pos hl]
    ring
  · exact absurd hl h
  · rw [if_pos (by omega), if_neg (by omega)]

theorem litLevel_neg (s : State) (l : Int) :
    litLevel s (-l) = litLevel s l := by
  unfold litLevel
  rw [vidx_neg]

/-- At conflict entry the walk invariant holds trivially: nothing is
seen, the scratch lists are empty. -/
theorem walkInv_init (s0 : State) (cid : Nat) (W : WFState s0 cid) :
    WalkInv s0 s0 s0.trail.length 0 := by
  refine ⟨WalkFrame.refl s0, le_refl _, ?_, ?_, ?_, fun idx h => Or.inl h,
    ?_, fun lvl _ => rfl⟩
  · have h0 : openCount s0 s0.trail.length = 0 := by
      unfold openCount
      rw [List.countP_eq_zero]
      intro k hk
      have hk' : k < s0.trail.length := List.mem_range.mp hk
      unfold openPred
      rw [W.clean1 k hk']
      simp
    rw [h0]
    rfl
  · intro l hml
    rw [W.clean2] at hml
    exact absurd hml (List.not_mem_nil l)
  · rw [W.clean2]
    exact List.nodup_nil
  · intro l hml
    rw [W.clean3] at hml
    exact absurd hml (List.not_mem_nil l)

/-- C1: for every conflict analyzed at decision level > 0, the clause
derived by the resolution walk is the list of collected lower-level
literals followed by the negation of the first UIP; it is falsified
under the entry trail, has no duplicate or complementary literal pair
(no variable occurs twice), the negated UIP sits on the current decision
level, every collected literal sits on a strictly lower non-zero level,
and the negated UIP is the only current-level literal. -/
theorem analyze_first_uip_spec (s : State) (cid : Nat) (W : WFState s cid) :
    ∃ L, (analyzeUIP s cid).1.clause = L ++ [-(analyzeUIP s cid).2] ∧
      (∀ l ∈ (analyzeUIP s cid).1.clause, val s l < 0) ∧
      ((analyzeUIP s cid).1.clause.map vidx).Nodup ∧
      litLevel s (-(analyzeUIP s cid).2) = s.level ∧
      (∀ l ∈ L, 0 < litLevel s l ∧ litLevel s l < s.level) ∧
      (∀ l ∈ (analyzeUIP s cid).1.clause, litLevel s l = s.level →
        l = -(analyzeUIP s cid).2) := by
  obtain ⟨j, hj, invf, huv, hulev, _⟩ := walkAux_spec s cid W
    (s.trail.length + 1) s (some cid) 0 0 s.trail.length
    (walkInv_init s cid W) (Nat.lt_succ_self _)
    (Or.inl ⟨rfl, rfl, rfl, rfl⟩)
  have hcl : (analyzeUIP s cid).1.clause =
      (walkAux s (some cid) 0 0 s.trail.length (s.trail.length + 1)).1.clause
        ++ [-(walkAux s (some cid) 0 0 s.trail.length
          (s.trail.length + 1)).2] := rfl
  have hval2 : (analyzeUIP s cid).2 =
      (walkAux s (some cid) 0 0 s.trail.length (s.trail.length + 1)).2 := rfl
  set p := walkAux s (some cid) 0 0 s.trail.length (s.trail.length + 1)
    with hp
  obtain ⟨hu0, hu1, hu2⟩ := W.w1 j hj
  have hvalneg : val s (-p.2) < 0 := by
    rw [huv, val_neg s _ hu0]
    omega
  refine ⟨p.1.clause, by rw [hcl, hval2], ?_, ?_, ?_, ?_, ?_⟩
  · intro l hml
    rw [hcl] at hml
    rcases List.mem_append.mp hml with h | h
    · exact (invf.hclause l h).1
    · rw [List.mem_singleton.mp h]
      exact hvalneg
  · rw [hcl, List.map_append]
    refine List.Nodup.append invf.hnodup (List.nodup_singleton _) ?_
    intro a ha hb
    have ha2 : a = vidx p.2 := by
      rw [List.mem_singleton.mp hb]
      exact vidx_neg p.2
    obtain ⟨l', hl', hvl'⟩ := List.mem_map.mp ha
    have hlev' : litLevel s l' = litLevel s p.2 := by
      unfold litLevel
      rw [hvl', ha2]
    have := (invf.hclause l' hl').2.2.1
    rw [hlev', hulev] at this
    omega
  · rw [hval2, litLevel_neg]
    exact hulev
  · intro l hml
    exact ⟨(invf.hclause l hml).2.1, (invf.hclause l hml).2.2.1⟩
  · intro l hml hlev
    rw [hcl] at hml
    rcases List.mem_append.mp hml with h | h
    · have := (invf.hclause l h).2.2.1
      omega
    · rw [List.mem_singleton.mp h, hval2]

/-- The three-variable scenario of the specification is well formed. -/
theorem scenario_wf : WFState scenarioState 0 := by
  refine ⟨by decide, by decide, by decide, by decide, ?_, by decide,
    by decide, by decide, by decide, by decide, by decide, by decide⟩
  intro k hk rc hrc
  have hk3 : k < 3 := hk
  clear hk
  interval_cases k
  · have h1 : (scenarioState.vtab
        (vidx (scenarioState.trail.getD 0 0))).reason = none := by decide
    rw [h1] at hrc
    exact Option.noConfusion hrc
  · have h1 : (scenarioState.vtab
        (vidx (scenarioState.trail.getD 1 0))).reason = none := by decide
    rw [h1] at hrc
    exact Option.noConfusion hrc
  · have h1 : (scenarioState.vtab
        (vidx (scenarioState.trail.getD 2 0))).reason = some 1 := by decide
    rw [h1] at hrc
    injection hrc with h2
    subst h2
    decide

theorem analyze_first_uip_spec_witness :
    ∃ L, (analyzeUIP scenarioState 0).1.clause =
        L ++ [-(analyzeUIP scenarioState 0).2] ∧
      (∀ l ∈ (analyzeUIP scenarioState 0).1.clause,
        val scenarioState l < 0) ∧
      ((analyzeUIP scenarioState 0).1.clause.map vidx).Nodup ∧
      litLevel scenarioState (-(analyzeUIP scenarioState 0).2) =
        scenarioState.level ∧
      (∀ l ∈ L, 0 < litLevel scenarioState l ∧
        litLevel scenarioState l < scenarioState.level) ∧
      (∀ l ∈ (analyzeUIP scenarioState 0).1.clause,
        litLevel scenarioState l = scenarioState.level →
          l = -(analyzeUIP scenarioState 0).2) :=
  analyze_first_uip_spec scenarioState 0 scenario_wf

/-! ### The cleanup section (C9) -/

/-- The backjump section never touches the analysis scratch state: the
analyzed batch, the active-levels list, the level records, and the
`seen`, `poison`, `removable` and `keep` flags are all preserved (only
the unit branch touches the flags table, to fix a variable's status). -/
theorem analyzeBackjump_scratch (u : Int) (g : Nat) (t : State) :
    (analyzeBackjump u g t).analyzed = t.analyzed ∧
    (analyzeBackjump u g t).levels = t.levels ∧
    (analyzeBackjump u g t).control = t.control ∧
    ∀ idx, ((analyzeBackjump u g t).ftab idx).seen = (t.ftab idx).seen ∧
      ((analyzeBackjump u g t).ftab idx).poison = (t.ftab idx).poison ∧
      ((analyzeBackjump u g t).ftab idx).removable =
        (t.ftab idx).removable ∧
      ((analyzeBackjump u g t).ftab idx).keep = (t.ftab idx).keep := by
  unfold analyzeBackjump new_learned_redundant_clause backtrack
    assign_driving assign_unit learn_unit_clause
  dsimp only
  by_cases h : 1 < t.clause.length
  · rw [if_pos h]
    exact ⟨rfl, rfl, rfl, fun idx => ⟨rfl, rfl, rfl, rfl⟩⟩
  · rw [if_neg h]
    refine ⟨rfl, rfl, rfl, ?_⟩
    intro idx
    dsimp only
    by_cases hi : idx = vidx (-u)
    · subst hi
      rw [Function.update_same]
      exact ⟨rfl, rfl, rfl, rfl⟩
    · rw [Function.update_noteq hi]
      exact ⟨rfl, rfl, rfl, rfl⟩

theorem analyzeCleanup_conflict (t : State) :
    (analyzeCleanup t).conflict = none := rfl

theorem analyzeCleanup_levelsNil (t : State) :
    (analyzeCleanup t).levels = [] := rfl

theorem analyzeCleanup_analyzedNil (t : State) :
    (analyzeCleanup t).analyzed = [] := by
  show (clear_levels { clear_seen t with clause := [] }).analyzed = []
  rw [clear_levels_pres _ (fun st => st.analyzed) (fun st ct => rfl)
    (fun st lv => rfl)]
  rfl

theorem analyzeCleanup_clauseNil (t : State) :
    (analyzeCleanup t).clause = [] := by
  show (clear_levels { clear_seen t with clause := [] }).clause = []
  rw [clear_levels_pres _ (fun st => st.clause) (fun st ct => rfl)
    (fun st lv => rfl)]

/-- The three-variable scenario of the specification enters `analyze`
with a clean scratch state. -/
theorem scenario_clean : CleanScratch scenarioState :=
  ⟨fun _ => rfl, fun _ => rfl, fun _ => rfl, fun _ => rfl, rfl, rfl, rfl,
    fun _ => rfl⟩

/-- C9 counterexample: an invocation of `analyze` at decision level 0
completes (it learns the empty clause and returns) but leaves the
conflict reference in place, so not every completed invocation clears
the scratch conflict state. -/
theorem analyze_cleanup_level0_cex :
    rootConflictState.level = 0 ∧
    (analyze id rootConflictState).conflict = some 0 := by
  exact ⟨rfl, rfl⟩

/-- C9 (amended): after every invocation of `analyze` with a conflict at
decision level > 0 on a well-formed state with clean scratch, the
scratch state is clean again: no variable has `seen` set, the analyzed
batch, clause buffer and active-levels list are empty, every level
record is reset, and the conflict reference is cleared; moreover at
cleanup time every member of the analyzed batch has `seen` set and none
of `poison`, `removable`, `keep`. -/
theorem analyze_cleanup_spec (mini : List Int → List Int) (s : State)
    (cid : Nat) (W : WFState s cid) (C : CleanScratch s)
    (hconf : s.conflict = some cid) :
    analyze mini s = analyzeCleanup (preCleanup mini s cid) ∧
    (∀ idx, seenF (analyze mini s) idx = false) ∧
    (analyze mini s).analyzed = [] ∧
    (analyze mini s).clause = [] ∧
    (analyze mini s).levels = [] ∧
    (∀ lvl, (analyze mini s).control lvl = emptyLevel) ∧
    (analyze mini s).conflict = none ∧
    (∀ l ∈ (preCleanup mini s cid).analyzed,
      seenF (preCleanup mini s cid) (vidx l) = true ∧
      ((preCleanup mini s cid).ftab (vidx l)).poison = false ∧
      ((preCleanup mini s cid).ftab (vidx l)).removable = false ∧
      ((preCleanup mini s cid).ftab (vidx l)).keep = false) := by
  have hlvl : ¬ s.level = 0 := by
    have := W.hlevel
    omega
  have hpipe : analyze mini s = analyzeCleanup (preCleanup mini s cid) :=
    analyze_pipeline mini s cid hconf hlvl
  obtain ⟨j, hj, invf, huv, hulev, huseen⟩ := walkAux_spec s cid W
    (s.trail.length + 1) s (some cid) 0 0 s.trail.length
    (walkInv_init s cid W) (Nat.lt_succ_self _) (Or.inl ⟨rfl, rfl, rfl, rfl⟩)
  obtain ⟨_, _, _, _, _, _, _, _, _, hS8lv, hS8an, hS8ft, hS8ct, _, _⟩ :=
    s8_frame mini s cid
  obtain ⟨hBJan, hBJlv, hBJct, hBJft⟩ := analyzeBackjump_scratch
    (analyzeUIP s cid).2
    (bump_resolved_clauses (analyzeUIP s cid).1).levels.length
    (bump_variables (analyzeMini mini (analyzeStats
      (bump_resolved_clauses (analyzeUIP s cid).1))))
  have hpc : preCleanup mini s cid = analyzeBackjump (analyzeUIP s cid).2
    (bump_resolved_clauses (analyzeUIP s cid).1).levels.length
    (bump_variables (analyzeMini mini (analyzeStats
      (bump_resolved_clauses (analyzeUIP s cid).1)))) := rfl
  have han : (preCleanup mini s cid).analyzed =
      (analyzeUIP s cid).1.analyzed := by
    rw [hpc, hBJan, hS8an]
  have hlv : (preCleanup mini s cid).levels =
      (analyzeUIP s cid).1.levels := by
    rw [hpc, hBJlv, hS8lv]
  have hct : (preCleanup mini s cid).control =
      (analyzeUIP s cid).1.control := by
    rw [hpc, hBJct, hS8ct]
  have hseenpc : ∀ idx, ((preCleanup mini s cid).ftab idx).seen =
      ((analyzeUIP s cid).1.ftab idx).seen := by
    intro idx
    rw [hpc, (hBJft idx).1, hS8ft]
  have hpoipc : ∀ idx, ((preCleanup mini s cid).ftab idx).poison =
      ((analyzeUIP s cid).1.ftab idx).poison := by
    intro idx
    rw [hpc, (hBJft idx).2.1, hS8ft]
  have hrempc : ∀ idx, ((preCleanup mini s cid).ftab idx).removable =
      ((analyzeUIP s cid).1.ftab idx).removable := by
    intro idx
    rw [hpc, (hBJft idx).2.2.1, hS8ft]
  have hkeeppc : ∀ idx, ((preCleanup mini s cid).ftab idx).keep =
      ((analyzeUIP s cid).1.ftab idx).keep := by
    intro idx
    rw [hpc, (hBJft idx).2.2.2, hS8ft]
  have hwalk_an : ∀ l ∈ (analyzeUIP s cid).1.analyzed,
      seenF (analyzeUIP s cid).1 (vidx l) = true := invf.han_seen
  have hwalk_seen : ∀ idx, seenF (analyzeUIP s cid).1 idx = true →
      ∃ l ∈ (analyzeUIP s cid).1.analyzed, vidx l = idx := by
    intro idx h
    rcases invf.hseen_an idx h with h0 | h0
    · rw [C.hseen idx] at h0
      exact Bool.noConfusion h0
    · exact h0
  have hwalk_flags : ∀ idx,
      ((analyzeUIP s cid).1.ftab idx).poison = false ∧
      ((analyzeUIP s cid).1.ftab idx).removable = false ∧
      ((analyzeUIP s cid).1.ftab idx).keep = false := by
    intro idx
    obtain ⟨hp, hr, hk, _⟩ := invf.frame.flags_eq idx
    exact ⟨hp.trans (C.hpoison idx), hr.trans (C.hremovable idx),
      hk.trans (C.hkeep idx)⟩
  have hwalk_ctrl : ∀ lvl, lvl ∉ (analyzeUIP s cid).1.levels →
      (analyzeUIP s cid).1.control lvl = emptyLevel := by
    intro lvl h
    exact (invf.hctrl lvl h).trans (C.hctrl lvl)
  refine ⟨hpipe, ?_, ?_, ?_, ?_, ?_, ?_, ?_⟩
  · intro idx
    rw [hpipe]
    unfold seenF
    rw [analyzeCleanup_ftab]
    by_cases hm : ∃ lit ∈ (preCleanup mini s cid).analyzed, vidx lit = idx
    · rw [if_pos hm]
    · rw [if_neg hm]
      by_cases hsn : ((preCleanup mini s cid).ftab idx).seen = true
      · exfalso
        have h2 : seenF (analyzeUIP s cid).1 idx = true := by
          unfold seenF
          rw [← hseenpc idx]
          exact hsn
        obtain ⟨l, hml, hvl⟩ := hwalk_seen idx h2
        refine hm ⟨l, ?_, hvl⟩
        rw [han]
        exact hml
      · exact Bool.eq_false_iff.mpr hsn
  · rw [hpipe]
    exact analyzeCleanup_analyzedNil _
  · rw [hpipe]
    exact analyzeCleanup_clauseNil _
  · rw [hpipe]
    exact analyzeCleanup_levelsNil _
  · intro lvl
    rw [hpipe, analyzeCleanup_control]
    by_cases hm : lvl ∈ (preCleanup mini s cid).levels
    · rw [if_pos hm]
    · rw [if_neg hm, hct]
      apply hwalk_ctrl
      rw [← hlv]
      exact hm
  · rw [hpipe]
    exact analyzeCleanup_conflict _
  · intro l hml
    have hml' : l ∈ (analyzeUIP s cid).1.analyzed := by
      rw [← han]
      exact hml
    refine ⟨?_, ?_, ?_, ?_⟩
    · unfold seenF
      rw [hseenpc]
      exact hwalk_an l hml'
    · rw [hpoipc]
      exact (hwalk_flags (vidx l)).1
    · rw [hrempc]
      exact (hwalk_flags (vidx l)).2.1
    · rw [hkeeppc]
      exact (hwalk_flags (vidx l)).2.2

theorem analyze_cleanup_spec_witness :
    analyze id scenarioState =
        analyzeCleanup (preCleanup id scenarioState 0) ∧
    (∀ idx, seenF (analyze id scenarioState) idx = false) ∧
    (analyze id scenarioState).analyzed = [] ∧
    (analyze id scenarioState).clause = [] ∧
    (analyze id scenarioState).levels = [] ∧
    (∀ lvl, (analyze id scenarioState).control lvl = emptyLevel) ∧
    (analyze id scenarioState).conflict = none ∧
    (∀ l ∈ (preCleanup id scenarioState 0).analyzed,
      seenF (preCleanup id scenarioState 0) (vidx l) = true ∧
      ((preCleanup id scenarioState 0).ftab (vidx l)).poison = false ∧
      ((preCleanup id scenarioState 0).ftab (vidx l)).removable = false ∧
      ((preCleanup id scenarioState 0).ftab (vidx l)).keep = false) :=
  analyze_cleanup_spec id scenarioState 0 scenario_wf scenario_clean rfl

end Cadical

